import Mathlib

/-! PlayScript validator — shallow embedding

A shallow embedding of `validate.py`, the PlayScript validation tool:
a two-phase pipeline that (1) parses and checks every document in
isolation, accumulating a project-wide symbol table, and (2) re-walks
every stored document resolving its inter-document references against
that table.

Modelling conventions:

* Parsed YAML values are the inductive `Value` (null, bool, int, string,
  sequence, mapping).  Mapping keys are strings; Python truthiness is
  `truthy`.  Floating point scalars are not modelled (no claim involves
  them), and Python equating `True` with `1` inside sets is not
  reproduced (no document name below is a boolean or number).
* Reading a file and running the YAML parser are external effects,
  modelled by handing each file to the validator as a `SrcFile`: a path
  together with the parser outcome (read failure, parse failure, or a
  parsed value).
* Mutable validator attributes (`errors`, `warnings`, the four symbol
  registries, `all_files`) become the explicit state `St`, threaded
  through every function; Python sets and dicts become lists with
  idempotent, order-preserving insertion, which preserves exactly the
  membership and iteration-order semantics the source relies on.
* Diagnostic messages are reproduced without the ASCII quote characters
  the source occasionally puts around key names.
* At a handful of places the source would raise an uncaught `TypeError`
  or `AttributeError` on wildly malformed documents (e.g. an unhashable
  declared name, a non-string truthy field type, a non-iterable
  `components` value in phase 2).  Those branches are marked with a
  comment; the embedding skips them, and no property proved below
  quantifies over such a document.
-/

/-- A parsed YAML value (mapping keys restricted to strings). -/
inductive Value where
  | vnull : Value
  | vbool : Bool → Value
  | vint : Int → Value
  | vstr : String → Value
  | vlist : List Value → Value
  | vmap : List (String × Value) → Value

mutual
/-- Decidable equality of parsed values (structural; hand-written since
the nested occurrence under `List` defeats the deriving handler). -/
def valueDecEq : (a b : Value) → Decidable (a = b)
  | .vnull, .vnull => .isTrue rfl
  | .vnull, .vbool _ => .isFalse (fun h => Value.noConfusion h)
  | .vnull, .vint _ => .isFalse (fun h => Value.noConfusion h)
  | .vnull, .vstr _ => .isFalse (fun h => Value.noConfusion h)
  | .vnull, .vlist _ => .isFalse (fun h => Value.noConfusion h)
  | .vnull, .vmap _ => .isFalse (fun h => Value.noConfusion h)
  | .vbool _, .vnull => .isFalse (fun h => Value.noConfusion h)
  | .vbool a, .vbool b =>
    match decEq a b with
    | .isTrue h => .isTrue (by rw [h])
    | .isFalse h => .isFalse (fun hh => by cases hh; exact h rfl)
  | .vbool _, .vint _ => .isFalse (fun h => Value.noConfusion h)
  | .vbool _, .vstr _ => .isFalse (fun h => Value.noConfusion h)
  | .vbool _, .vlist _ => .isFalse (fun h => Value.noConfusion h)
  | .vbool _, .vmap _ => .isFalse (fun h => Value.noConfusion h)
  | .vint _, .vnull => .isFalse (fun h => Value.noConfusion h)
  | .vint _, .vbool _ => .isFalse (fun h => Value.noConfusion h)
  | .vint a, .vint b =>
    match decEq a b with
    | .isTrue h => .isTrue (by rw [h])
    | .isFalse h => .isFalse (fun hh => by cases hh; exact h rfl)
  | .vint _, .vstr _ => .isFalse (fun h => Value.noConfusion h)
  | .vint _, .vlist _ => .isFalse (fun h => Value.noConfusion h)
  | .vint _, .vmap _ => .isFalse (fun h => Value.noConfusion h)
  | .vstr _, .vnull => .isFalse (fun h => Value.noConfusion h)
  | .vstr _, .vbool _ => .isFalse (fun h => Value.noConfusion h)
  | .vstr _, .vint _ => .isFalse (fun h => Value.noConfusion h)
  | .vstr a, .vstr b =>
    match decEq a b with
    | .isTrue h => .isTrue (by rw [h])
    | .isFalse h => .isFalse (fun hh => by cases hh; exact h rfl)
  | .vstr _, .vlist _ => .isFalse (fun h => Value.noConfusion h)
  | .vstr _, .vmap _ => .isFalse (fun h => Value.noConfusion h)
  | .vlist _, .vnull => .isFalse (fun h => Value.noConfusion h)
  | .vlist _, .vbool _ => .isFalse (fun h => Value.noConfusion h)
  | .vlist _, .vint _ => .isFalse (fun h => Value.noConfusion h)
  | .vlist _, .vstr _ => .isFalse (fun h => Value.noConfusion h)
  | .vlist a, .vlist b =>
    match valueListDecEq a b with
    | .isTrue h => .isTrue (by rw [h])
    | .isFalse h => .isFalse (fun hh => by cases hh; exact h rfl)
  | .vlist _, .vmap _ => .isFalse (fun h => Value.noConfusion h)
  | .vmap _, .vnull => .isFalse (fun h => Value.noConfusion h)
  | .vmap _, .vbool _ => .isFalse (fun h => Value.noConfusion h)
  | .vmap _, .vint _ => .isFalse (fun h => Value.noConfusion h)
  | .vmap _, .vstr _ => .isFalse (fun h => Value.noConfusion h)
  | .vmap _, .vlist _ => .isFalse (fun h => Value.noConfusion h)
  | .vmap a, .vmap b =>
    match valueMapDecEq a b with
    | .isTrue h => .isTrue (by rw [h])
    | .isFalse h => .isFalse (fun hh => by cases hh; exact h rfl)

def valueListDecEq : (a b : List Value) → Decidable (a = b)
  | [], [] => .isTrue rfl
  | [], _ :: _ => .isFalse (fun h => List.noConfusion h)
  | _ :: _, [] => .isFalse (fun h => List.noConfusion h)
  | x :: xs, y :: ys =>
    match valueDecEq x y with
    | .isFalse h => .isFalse (fun hh => by cases hh; exact h rfl)
    | .isTrue h1 =>
      match valueListDecEq xs ys with
      | .isTrue h2 => .isTrue (by rw [h1, h2])
      | .isFalse h2 => .isFalse (fun hh => by cases hh; exact h2 rfl)

def valueMapDecEq : (a b : List (String × Value)) → Decidable (a = b)
  | [], [] => .isTrue rfl
  | [], _ :: _ => .isFalse (fun h => List.noConfusion h)
  | _ :: _, [] => .isFalse (fun h => List.noConfusion h)
  | (k1, v1) :: xs, (k2, v2) :: ys =>
    match decEq k1 k2 with
    | .isFalse h => .isFalse (fun hh => by cases hh; exact h rfl)
    | .isTrue hk =>
      match valueDecEq v1 v2 with
      | .isFalse h => .isFalse (fun hh => by cases hh; exact h rfl)
      | .isTrue hv =>
        match valueMapDecEq xs ys with
        | .isTrue ht => .isTrue (by rw [hk, hv, ht])
        | .isFalse h => .isFalse (fun hh => by cases hh; exact h rfl)
end

instance : DecidableEq Value := valueDecEq

/-- A parsed top-level mapping: the content of one loaded document. -/
abbrev Omap := List (String × Value)

/-- Python `dict.get` on a string-keyed mapping. -/
def oget : Omap → String → Option Value
  | [], _ => none
  | (k, v) :: rest, key => if k = key then some v else oget rest key

/-- Python truthiness of a parsed value. -/
def truthy : Value → Bool
  | .vnull => false
  | .vbool b => b
  | .vint n => n != 0
  | .vstr s => s != ""
  | .vlist l => !l.isEmpty
  | .vmap m => !m.isEmpty

/-- `isinstance(v, list)`. -/
def Value.isList : Value → Bool
  | .vlist _ => true
  | _ => false

/-- `isinstance(v, dict)`. -/
def Value.isMap : Value → Bool
  | .vmap _ => true
  | _ => false

/-- Python iteration (`for x in v`): a list yields its elements, a string
its characters (as one-character strings), a mapping its keys; the other
scalars raise `TypeError` in the source, here `none`. -/
def pyIter : Value → Option (List Value)
  | .vlist l => some l
  | .vstr s => some (s.toList.map (fun c => .vstr (String.singleton c)))
  | .vmap m => some (m.map (fun p => .vstr p.1))
  | _ => none

mutual
/-- Best-effort rendering of a value as Python `str()` would, used only
inside diagnostic message strings, never for control flow. -/
def pyStr : Value → String
  | .vnull => "None"
  | .vbool b => if b then "True" else "False"
  | .vint n => toString n
  | .vstr s => s
  | .vlist l => "[" ++ String.intercalate ", " (pyStrList l) ++ "]"
  | .vmap m => "\x7b" ++ String.intercalate ", " (pyStrMap m) ++ "\x7d"

def pyStrList : List Value → List String
  | [] => []
  | v :: vs => pyStr v :: pyStrList vs

def pyStrMap : List (String × Value) → List String
  | [] => []
  | (k, v) :: ps => (k ++ ": " ++ pyStr v) :: pyStrMap ps
end

/-- `startsWithChars p s`: the character list `p` starts the list `s`. -/
def startsWithChars : List Char → List Char → Bool
  | [], _ => true
  | _ :: _, [] => false
  | p :: ps, c :: cs => p == c && startsWithChars ps cs

/-- Python `s.startswith(pre)`. -/
def strStarts (pre s : String) : Bool :=
  startsWithChars pre.toList s.toList

/-- Split a character list at the first `.`, if any. -/
def splitDotAux : List Char → Option (List Char × List Char)
  | [] => none
  | c :: cs =>
    if c = '.' then some ([], cs)
    else
      match splitDotAux cs with
      | none => none
      | some (a, b) => some (c :: a, b)

/-- Python `s.split(chr(46), 1)` when `chr(46) in s`: the part before the
first dot and the part after it; `none` when the string has no dot
(`chr(46) in s` is false). -/
def splitDot (s : String) : Option (String × String) :=
  (splitDotAux s.toList).map (fun p => (String.mk p.1, String.mk p.2))

/-- One recorded diagnostic (`ValidationError` in the source; line
numbers are always absent in practice and omitted here). -/
structure ValidationError where
  file_path : String
  error_type : String
  message : String
  severity : String
deriving DecidableEq

/-- The cross-file reference registries built during phase 1
(the Symbol Table of the spec). -/
structure SymTab where
  schema_objects : List Value
  schema_fields : List (Value × List Value)
  action_names : List Value
  integration_names : List Value
deriving DecidableEq

/-- The validator state: the diagnostic collector, the symbol table and
the project document set (`self.errors`, `self.warnings`, the four
registries and `self.all_files` of `PlayScriptValidator`). -/
structure St where
  errors : List ValidationError
  warnings : List ValidationError
  sym : SymTab
  all_files : List (String × Omap)
deriving DecidableEq

/-- Append an error-severity diagnostic (`self.errors.append(...)`). -/
def addErr (s : St) (p ty msg : String) : St :=
  { s with errors := s.errors ++ [⟨p, ty, msg, "error"⟩] }

/-- Append a warning-severity diagnostic (`self.warnings.append(...)`). -/
def addWarn (s : St) (p ty msg : String) : St :=
  { s with warnings := s.warnings ++ [⟨p, ty, msg, "warning"⟩] }

/-- Idempotent, order-preserving set insertion (Python `set.add`). -/
def insertSet (l : List Value) (v : Value) : List Value :=
  if v ∈ l then l else l ++ [v]

/-- Lookup in a value-keyed association list (Python `d[k]` / `k in d`
on `schema_fields`). -/
def lookupSF : List (Value × List Value) → Value → Option (List Value)
  | [], _ => none
  | (k, fs) :: rest, key => if k = key then some fs else lookupSF rest key

/-- `self.schema_fields[k] = set()`-style overwrite (fresh empty set). -/
def sfSet : List (Value × List Value) → Value → List Value → List (Value × List Value)
  | [], k, v => [(k, v)]
  | (k0, v0) :: rest, k, v =>
    if k0 = k then (k, v) :: rest else (k0, v0) :: sfSet rest k v

/-- `self.schema_fields[k].add(f)`.  The source would raise `KeyError`
were the key absent; the validator always sets the key first, so the
fallback branch is unreachable in its runs. -/
def sfAdd : List (Value × List Value) → Value → Value → List (Value × List Value)
  | [], k, f => [(k, [f])]
  | (k0, fs) :: rest, k, f =>
    if k0 = k then (k0, insertSet fs f) :: rest else (k0, fs) :: sfAdd rest k f

/-- `self.all_files[path] = data` (insertion-ordered dict update). -/
def dictSet : List (String × Omap) → String → Omap → List (String × Omap)
  | [], k, v => [(k, v)]
  | (k0, v0) :: rest, k, v =>
    if k0 = k then (k, v) :: rest else (k0, v0) :: dictSet rest k v

/-- `_check_required_fields`: one `missing_required_field` error per
listed key absent from the document. -/
def check_required_fields (s : St) (p : String) (data : Omap) (req : List String) : St :=
  req.foldl
    (fun s fld =>
      if (oget data fld).isSome then s
      else addErr s p "missing_required_field" ("Missing required field: " ++ fld))
    s

/-- The fixed `implementation` enumeration of action documents. -/
def valid_implementations : List Value :=
  [.vstr "create_record", .vstr "integration_call", .vstr "python", .vstr "api_call"]

/-- `_validate_action`. -/
def validate_action (s : St) (p : String) (data : Omap) : St :=
  let s := check_required_fields s p data ["name", "description", "implementation"]
  let name := (oget data "name").getD .vnull
  let s :=
    if truthy name then
      { s with sym := { s.sym with action_names := insertSet s.sym.action_names name } }
    else s
  let impl := (oget data "implementation").getD .vnull
  let s :=
    if truthy impl ∧ impl ∉ valid_implementations then
      addErr s p "invalid_implementation"
        ("Invalid implementation: " ++ pyStr impl ++
          ". Must be one of: create_record, integration_call, python, api_call")
    else s
  let s :=
    match oget data "input_schema" with
    | some v => if v.isMap then s else addErr s p "invalid_schema" "input_schema must be an object"
    | none => s
  let s :=
    match oget data "output_schema" with
    | some v => if v.isMap then s else addErr s p "invalid_schema" "output_schema must be an object"
    | none => s
  let tags := (oget data "tags").getD (.vlist [])
  if truthy tags ∧ ¬ tags.isList then addErr s p "invalid_tags" "tags must be a list" else s

/-- The fixed field-type enumeration of schema documents. -/
def valid_field_types : List Value :=
  [.vstr "string", .vstr "email", .vstr "datetime", .vstr "integer", .vstr "decimal",
   .vstr "boolean", .vstr "textarea", .vstr "picklist.excl", .vstr "picklist.multi"]

/-- One iteration of the `for i, field in enumerate(fields)` loop of
`_validate_schema`; the accumulator carries the validator state, the
local `field_names` set and the running index. -/
def schema_field_step (p : String) (oname : Value) :
    St × List Value × Nat → Value → St × List Value × Nat
  | (s, fns, i), field =>
    match field with
    | .vmap fm =>
      let fname := (oget fm "name").getD .vnull
      if truthy fname = false then
        (addErr s p "missing_field_name" ("Field " ++ toString i ++ " missing name"), fns, i + 1)
      else
        let s :=
          if fname ∈ fns then
            addErr s p "duplicate_field" ("Duplicate field name: " ++ pyStr fname)
          else s
        let fns := insertSet fns fname
        let s :=
          if truthy oname then
            { s with sym := { s.sym with schema_fields := sfAdd s.sym.schema_fields oname fname } }
          else s
        let ftype := (oget fm "type").getD .vnull
        let s :=
          if truthy ftype ∧ ftype ∉ valid_field_types then
            addWarn s p "unknown_field_type" ("Unknown field type: " ++ pyStr ftype)
          else s
        let s :=
          match ftype with
          | .vstr t =>
            -- the source tests `field_type.startswith(...)`; a truthy
            -- non-string type would raise AttributeError there instead
            if strStarts "picklist" t ∧ (oget fm "values").isNone then
              addErr s p "missing_picklist_values"
                ("Picklist field " ++ pyStr fname ++ " missing values")
            else s
          | _ => s
        (s, fns, i + 1)
    | _ => (addErr s p "invalid_field" ("Field " ++ toString i ++ " must be an object"), fns, i + 1)

/-- `_validate_schema`. -/
def validate_schema (s : St) (p : String) (data : Omap) : St :=
  let s := check_required_fields s p data ["object", "description", "fields"]
  let oname := (oget data "object").getD .vnull
  let s :=
    if truthy oname then
      { s with sym :=
        { s.sym with
          schema_objects := insertSet s.sym.schema_objects oname,
          schema_fields := sfSet s.sym.schema_fields oname [] } }
    else s
  match (oget data "fields").getD (.vlist []) with
  | .vlist fl => (fl.foldl (schema_field_step p oname) (s, [], 0)).1
  | _ => addErr s p "invalid_fields" "fields must be a list"

/-- The fixed component-type enumeration of layout documents. -/
def valid_component_types : List Value :=
  [.vstr "field_section", .vstr "related_list", .vstr "custom_component"]

/-- One iteration of the component loop of `_validate_layout`. -/
def layout_component_step (p : String) : St × Nat → Value → St × Nat
  | (s, i), comp =>
    match comp with
    | .vmap cm =>
      let ct := (oget cm "type").getD .vnull
      let s :=
        if truthy ct ∧ ct ∉ valid_component_types then
          addErr s p "invalid_component_type" ("Invalid component type: " ++ pyStr ct)
        else s
      (s, i + 1)
    | _ => (addErr s p "invalid_component" ("Component " ++ toString i ++ " must be an object"),
            i + 1)

/-- `_validate_layout`. -/
def validate_layout (s : St) (p : String) (data : Omap) : St :=
  let s := check_required_fields s p data ["name", "components"]
  match (oget data "components").getD (.vlist []) with
  | .vlist comps => (comps.foldl (layout_component_step p) (s, 0)).1
  | _ => addErr s p "invalid_components" "components must be a list"

/-- The fixed trigger-type enumeration of automation documents. -/
def valid_trigger_types : List Value :=
  [.vstr "database_event", .vstr "schedule", .vstr "webhook", .vstr "manual"]

/-- `_validate_automation`. -/
def validate_automation (s : St) (p : String) (data : Omap) : St :=
  let s := check_required_fields s p data ["name", "description", "trigger", "action"]
  let s :=
    match (oget data "trigger").getD (.vmap []) with
    | .vmap tm =>
      let tt := (oget tm "type").getD .vnull
      if truthy tt ∧ tt ∉ valid_trigger_types then
        addErr s p "invalid_trigger_type" ("Invalid trigger type: " ++ pyStr tt)
      else s
    | _ => s
  match (oget data "action").getD (.vmap []) with
  | .vmap am =>
    if (oget am "ref").isNone then addErr s p "missing_action_ref" "Action must have ref field"
    else s
  | _ => s

/-- `_validate_integration`. -/
def validate_integration (s : St) (p : String) (data : Omap) : St :=
  let s := check_required_fields s p data ["name", "service", "description"]
  let name := (oget data "name").getD .vnull
  if truthy name then
    { s with sym := { s.sym with integration_names := insertSet s.sym.integration_names name } }
  else s

/-- `_validate_form`. -/
def validate_form (s : St) (p : String) (data : Omap) : St :=
  let s := check_required_fields s p data ["name", "title", "target_object", "fields"]
  match (oget data "fields").getD (.vlist []) with
  | .vlist _ => s
  | _ => addErr s p "invalid_fields" "fields must be a list"

/-- The outcome of opening and parsing one file: a read failure, a YAML
parse failure (each with the exception message), or a parsed value. -/
inductive ParseResult where
  | readError : String → ParseResult
  | parseError : String → ParseResult
  | parsed : Value → ParseResult
deriving DecidableEq

/-- One candidate file handed to the validator: its path and what
reading plus parsing it yields (both external effects). -/
structure SrcFile where
  path : String
  parse : ParseResult
deriving DecidableEq

/-- `_validate_file`: parse, store, dispatch by the `type` tag. -/
def validate_file (s : St) (f : SrcFile) : St :=
  match f.parse with
  | .readError e => addErr s f.path "file_error" ("Error reading file: " ++ e)
  | .parseError e => addErr s f.path "yaml_syntax" ("YAML syntax error: " ++ e)
  | .parsed v =>
    match v with
    | .vmap data =>
      let s := { s with all_files := dictSet s.all_files f.path data }
      let ft := (oget data "type").getD .vnull
      if truthy ft = false then
        addErr s f.path "missing_type" "Missing required type field"
      else if ft = .vstr "action" then validate_action s f.path data
      else if ft = .vstr "schema" then validate_schema s f.path data
      else if ft = .vstr "layout" then validate_layout s f.path data
      else if ft = .vstr "automation" then validate_automation s f.path data
      else if ft = .vstr "integration" then validate_integration s f.path data
      else if ft = .vstr "form" then validate_form s f.path data
      else addWarn s f.path "unknown_type" ("Unknown type: " ++ pyStr ft)
    | _ => addErr s f.path "invalid_format" "File must contain a YAML object"

/-- `_validate_automation_references` (phase 2): the `action.ref` of an
automation document must name a registered action. -/
def validate_automation_references (s : St) (p : String) (data : Omap) : St :=
  match (oget data "action").getD (.vmap []) with
  | .vmap am =>
    let rv := (oget am "ref").getD .vnull
    if truthy rv ∧ rv ∉ s.sym.action_names then
      addErr s p "missing_action_reference" ("Action not found: " ++ pyStr rv)
    else s
  | _ => s

/-- `_validate_field_reference` (phase 2): resolve one field reference,
qualified (`object.field`) against the named object, bare against the
enclosing layout name.  `field_name` is a string at every call site that
does not raise in the source. -/
def validate_field_reference (s : St) (p : String) (object_name : Value) (field_name : String) :
    St :=
  match splitDot field_name with
  | some (obj, fld) =>
    match lookupSF s.sym.schema_fields (.vstr obj) with
    | some fset =>
      if .vstr fld ∈ fset then s
      else addErr s p "missing_field_reference" ("Field not found: " ++ obj ++ "." ++ fld)
    | none => s
  | none =>
    match lookupSF s.sym.schema_fields object_name with
    | some fset =>
      if .vstr field_name ∈ fset then s
      else
        addErr s p "missing_field_reference"
          ("Field not found: " ++ pyStr object_name ++ "." ++ field_name)
    | none => s

/-- One entry of a layout component's `fields` list in phase 2: a bare
string or a mapping with a `name` key is resolved; anything else is
skipped (a mapping whose `name` is not a string would raise in the
source when tested for a dot). -/
def layout_ref_field_step (p : String) (lname : Value) (s : St) (field : Value) : St :=
  match field with
  | .vstr fs => validate_field_reference s p lname fs
  | .vmap fm =>
    match oget fm "name" with
    | some (.vstr n) => validate_field_reference s p lname n
    | some _ => s
    | none => s
  | _ => s

/-- One component of a layout in phase 2: walk its `fields` entries. -/
def layout_ref_component_step (p : String) (lname : Value) (s : St) (comp : Value) : St :=
  match comp with
  | .vmap cm =>
    match pyIter ((oget cm "fields").getD (.vlist [])) with
    | some fl => fl.foldl (layout_ref_field_step p lname) s
    | none => s
  | _ => s

/-- `_validate_layout_references` (phase 2). -/
def validate_layout_references (s : St) (p : String) (data : Omap) : St :=
  let lname := (oget data "name").getD .vnull
  let s :=
    if truthy lname ∧ lname ∉ s.sym.schema_objects then
      addWarn s p "missing_schema_reference" ("Schema not found for layout: " ++ pyStr lname)
    else s
  match pyIter ((oget data "components").getD (.vlist [])) with
  | some cl => cl.foldl (layout_ref_component_step p lname) s
  | none => s

/-- One entry of a form's `fields` list in phase 2: a mapping carrying a
qualified `maps_to` is resolved against the named object; a bare
`maps_to` is not checked at all. -/
def form_ref_field_step (p : String) (s : St) (field : Value) : St :=
  match field with
  | .vmap fm =>
    match oget fm "maps_to" with
    | some (.vstr m) =>
      match splitDot m with
      | some (obj, fld) =>
        match lookupSF s.sym.schema_fields (.vstr obj) with
        | some fset =>
          if .vstr fld ∈ fset then s
          else addErr s p "missing_field_reference" ("Field not found: " ++ m)
        | none => s
      | none => s
    | some _ => s
    | none => s
  | _ => s

/-- `_validate_form_references` (phase 2). -/
def validate_form_references (s : St) (p : String) (data : Omap) : St :=
  let tobj := (oget data "target_object").getD .vnull
  let s :=
    if truthy tobj ∧ tobj ∉ s.sym.schema_objects then
      addErr s p "missing_schema_reference" ("Target object not found: " ++ pyStr tobj)
    else s
  match pyIter ((oget data "fields").getD (.vlist [])) with
  | some fl => fl.foldl (form_ref_field_step p) s
  | none => s

/-- `_validate_integration_references` (phase 2): an `integration_call`
action's `defaults.integration` must name a registered integration.  A
non-mapping `defaults` value would raise AttributeError in the source. -/
def validate_integration_references (s : St) (p : String) (data : Omap) : St :=
  match (oget data "defaults").getD (.vmap []) with
  | .vmap dm =>
    let integ := (oget dm "integration").getD .vnull
    if truthy integ ∧ integ ∉ s.sym.integration_names then
      addErr s p "missing_integration_reference" ("Integration not found: " ++ pyStr integ)
    else s
  | _ => s

/-- One stored document's phase-2 dispatch (`_validate_cross_file_references`
loop body). -/
def cross_file_step (s : St) (pd : String × Omap) : St :=
  let ft := (oget pd.2 "type").getD .vnull
  if ft = .vstr "automation" then validate_automation_references s pd.1 pd.2
  else if ft = .vstr "layout" then validate_layout_references s pd.1 pd.2
  else if ft = .vstr "form" then validate_form_references s pd.1 pd.2
  else if ft = .vstr "action" ∧ (oget pd.2 "implementation").getD .vnull = .vstr "integration_call"
    then validate_integration_references s pd.1 pd.2
  else s

/-- `_validate_cross_file_references`: phase 2 over every stored document. -/
def validate_cross_file_references (s : St) : St :=
  s.all_files.foldl cross_file_step s

/-- The resolved target of a run: the enumerated candidate files (a
named file, a directory subtree, or the whole project root), or a named
target that is neither a file nor a directory. -/
inductive Target where
  | files : List SrcFile → Target
  | notFound : String → Target

/-- `_validate_syntax`: phase 1 over the resolved target. -/
def validate_syntax_phase (s : St) : Target → St
  | .files fs => fs.foldl validate_file s
  | .notFound n => addErr s n "file_not_found" ("Target not found: " ++ n)

/-- The freshly constructed validator (`PlayScriptValidator.__init__`). -/
def initSt : St := ⟨[], [], ⟨[], [], [], []⟩, []⟩

/-- `validate_all`: run the two stages subject to the mode flags and
return the verdict (`len(self.errors) == 0`) with the final state. -/
def validate_all (t : Target) (syntax_only cross_file_only : Bool) : Bool × St :=
  let s := initSt
  let s := if cross_file_only then s else validate_syntax_phase s t
  let s := if syntax_only then s else validate_cross_file_references s
  (s.errors.length == 0, s)

/-- `main`: process exit status (`sys.exit(0 if success else 1)`). -/
def mainExitCode (t : Target) (syntax_only cross_file_only : Bool) : Nat :=
  if (validate_all t syntax_only cross_file_only).1 then 0 else 1

/-- The `Files validated` summary count (`len(self.all_files)`). -/
def files_validated (s : St) : Nat := s.all_files.length

/-- Diagnostics for path `p` of category `ty`: the per-file, per-category
count used to state the claims. -/
def countPT (errs : List ValidationError) (p ty : String) : Nat :=
  (errs.filter (fun e => e.file_path = p ∧ e.error_type = ty)).length

/-- Diagnostics of a given severity among a list. -/
def countSeverity (errs : List ValidationError) (sev : String) : Nat :=
  (errs.filter (fun e => e.severity = sev)).length

/-- All diagnostics recorded by a run, errors then warnings. -/
def runDiagnostics (t : Target) (syntax_only cross_file_only : Bool) : List ValidationError :=
  ((validate_all t syntax_only cross_file_only).2).errors ++
    ((validate_all t syntax_only cross_file_only).2).warnings

/-! ## Diagnostic bookkeeping

`DX Pe Pw s r` states that `r` extends `s` by appending error diagnostics
all satisfying `Pe` and warning diagnostics all satisfying `Pw` — the
append-only discipline of the source's two collector lists. -/

def DX (Pe Pw : ValidationError → Prop) (s r : St) : Prop :=
  (∃ d, r.errors = s.errors ++ d ∧ ∀ e ∈ d, Pe e) ∧
  (∃ d, r.warnings = s.warnings ++ d ∧ ∀ e ∈ d, Pw e)

theorem DX.rfl {Pe Pw : ValidationError → Prop} (s : St) : DX Pe Pw s s :=
  ⟨⟨[], by simp, by simp⟩, ⟨[], by simp, by simp⟩⟩

theorem DX.trans {Pe Pw : ValidationError → Prop} {s t r : St}
    (h1 : DX Pe Pw s t) (h2 : DX Pe Pw t r) : DX Pe Pw s r := by
  obtain ⟨⟨d1, he1, hp1⟩, ⟨w1, hw1, hq1⟩⟩ := h1
  obtain ⟨⟨d2, he2, hp2⟩, ⟨w2, hw2, hq2⟩⟩ := h2
  refine ⟨⟨d1 ++ d2, by rw [he2, he1, List.append_assoc], ?_⟩,
    ⟨w1 ++ w2, by rw [hw2, hw1, List.append_assoc], ?_⟩⟩
  · intro e he
    rcases List.mem_append.1 he with h | h
    exacts [hp1 e h, hp2 e h]
  · intro e he
    rcases List.mem_append.1 he with h | h
    exacts [hq1 e h, hq2 e h]

theorem DX.mono {Pe Pw Qe Qw : ValidationError → Prop} {s r : St} (h : DX Pe Pw s r)
    (he : ∀ e, Pe e → Qe e) (hw : ∀ e, Pw e → Qw e) : DX Qe Qw s r := by
  obtain ⟨⟨d1, he1, hp1⟩, ⟨w1, hw1, hq1⟩⟩ := h
  exact ⟨⟨d1, he1, fun e hx => he e (hp1 e hx)⟩, ⟨w1, hw1, fun e hx => hw e (hq1 e hx)⟩⟩

theorem DX_addErr {Pe Pw : ValidationError → Prop} {s : St} {p ty m : String}
    (h : Pe ⟨p, ty, m, "error"⟩) : DX Pe Pw s (addErr s p ty m) :=
  ⟨⟨[⟨p, ty, m, "error"⟩], by simp [addErr], by simpa using h⟩,
   ⟨[], by simp [addErr], by simp⟩⟩

theorem DX_addWarn {Pe Pw : ValidationError → Prop} {s : St} {p ty m : String}
    (h : Pw ⟨p, ty, m, "warning"⟩) : DX Pe Pw s (addWarn s p ty m) :=
  ⟨⟨[], by simp [addWarn], by simp⟩,
   ⟨[⟨p, ty, m, "warning"⟩], by simp [addWarn], by simpa using h⟩⟩

theorem DX_sym_update {Pe Pw : ValidationError → Prop} {s : St} {x : SymTab} :
    DX Pe Pw s { s with sym := x } :=
  ⟨⟨[], by simp, by simp⟩, ⟨[], by simp, by simp⟩⟩

theorem DX_af_update {Pe Pw : ValidationError → Prop} {s : St} {x : List (String × Omap)} :
    DX Pe Pw s { s with all_files := x } :=
  ⟨⟨[], by simp, by simp⟩, ⟨[], by simp, by simp⟩⟩

/-- Lift a per-step extension fact through a fold, with the validator
state read off the accumulator through `proj`. -/
theorem DX_foldl {σ α : Type} (proj : σ → St) (step : σ → α → σ)
    {Pe Pw : ValidationError → Prop}
    (h : ∀ acc x, DX Pe Pw (proj acc) (proj (step acc x))) :
    ∀ (l : List α) (acc : σ), DX Pe Pw (proj acc) (proj (l.foldl step acc))
  | [], _ => DX.rfl _
  | x :: xs, acc => DX.trans (h acc x) (DX_foldl proj step h xs (step acc x))

/-- Error diagnostics appended at path `p` with severity `error` and a
category from `tys`. -/
def PE (p : String) (tys : List String) (e : ValidationError) : Prop :=
  e.file_path = p ∧ e.severity = "error" ∧ e.error_type ∈ tys

/-- Warning counterpart of `PE`. -/
def PW (p : String) (tys : List String) (e : ValidationError) : Prop :=
  e.file_path = p ∧ e.severity = "warning" ∧ e.error_type ∈ tys

theorem countPT_append (a b : List ValidationError) (p ty : String) :
    countPT (a ++ b) p ty = countPT a p ty + countPT b p ty := by
  simp [countPT, List.filter_append]

theorem countPT_eq_zero {d : List ValidationError} {p ty : String}
    (hd : ∀ e ∈ d, ¬(e.file_path = p ∧ e.error_type = ty)) : countPT d p ty = 0 := by
  simp only [countPT, List.length_eq_zero, List.filter_eq_nil_iff, decide_eq_true_eq]
  exact hd

theorem countPT_eq_of_append {s d : List ValidationError} {r : List ValidationError}
    (h : r = s ++ d) {p ty : String}
    (hd : ∀ e ∈ d, ¬(e.file_path = p ∧ e.error_type = ty)) :
    countPT r p ty = countPT s p ty := by
  subst h
  rw [countPT_append, countPT_eq_zero hd, Nat.add_zero]

theorem countPT_eq_of_DX {Pe Pw : ValidationError → Prop} {s r : St} (h : DX Pe Pw s r)
    {p ty : String} (hne : ∀ e, Pe e → ¬(e.file_path = p ∧ e.error_type = ty)) :
    countPT r.errors p ty = countPT s.errors p ty := by
  obtain ⟨⟨d, he, hp⟩, _⟩ := h
  exact countPT_eq_of_append he (fun e hd => hne e (hp e hd))

theorem countPT_addErr_self (s : St) (p ty m : String) :
    countPT (addErr s p ty m).errors p ty = countPT s.errors p ty + 1 := by
  simp [addErr, countPT, List.filter_append]

theorem countPT_addErr_ne (s : St) {p' ty' : String} (m : String) {p ty : String}
    (h : ¬(p' = p ∧ ty' = ty)) :
    countPT (addErr s p' ty' m).errors p ty = countPT s.errors p ty := by
  refine countPT_eq_of_append
    (show (addErr s p' ty' m).errors = s.errors ++ [⟨p', ty', m, "error"⟩] from rfl) ?_
  intro e he
  simp only [List.mem_singleton] at he
  subst he
  simpa using h

theorem DX_ite {Pe Pw : ValidationError → Prop} {s a b : St} {c : Prop} [Decidable c]
    (ha : DX Pe Pw s a) (hb : DX Pe Pw s b) : DX Pe Pw s (if c then a else b) := by
  split <;> assumption

theorem PE_sub {p : String} {tys tys' : List String} (hsub : ∀ x ∈ tys, x ∈ tys')
    {e : ValidationError} : PE p tys e → PE p tys' e :=
  fun ⟨a, b, c⟩ => ⟨a, b, hsub _ c⟩

theorem PW_sub {p : String} {tys tys' : List String} (hsub : ∀ x ∈ tys, x ∈ tys')
    {e : ValidationError} : PW p tys e → PW p tys' e :=
  fun ⟨a, b, c⟩ => ⟨a, b, hsub _ c⟩

/-- Error categories each phase-1 validator can emit. -/
def actionErrTys : List String :=
  ["missing_required_field", "invalid_implementation", "invalid_schema", "invalid_tags"]

def schemaErrTys : List String :=
  ["missing_required_field", "invalid_fields", "invalid_field", "missing_field_name",
   "duplicate_field", "missing_picklist_values"]

def layoutErrTys : List String :=
  ["missing_required_field", "invalid_components", "invalid_component",
   "invalid_component_type"]

def automationErrTys : List String :=
  ["missing_required_field", "invalid_trigger_type", "missing_action_ref"]

def integrationErrTys : List String := ["missing_required_field"]

def formErrTys : List String := ["missing_required_field", "invalid_fields"]

/-- Every error category phase 1 can emit for a file. -/
def fileErrTys : List String :=
  ["file_error", "yaml_syntax", "invalid_format", "missing_type"] ++ actionErrTys ++
    schemaErrTys ++ layoutErrTys ++ automationErrTys ++ integrationErrTys ++ formErrTys

/-- Every warning category phase 1 can emit for a file. -/
def fileWarnTys : List String := ["unknown_type", "unknown_field_type"]

theorem DX_check_required {p : String} {tys wtys : List String}
    (h : "missing_required_field" ∈ tys) (s : St) (data : Omap) (req : List String) :
    DX (PE p tys) (PW p wtys) s (check_required_fields s p data req) := by
  unfold check_required_fields
  refine DX_foldl id _ (fun acc x => ?_) req s
  exact DX_ite (DX.rfl _) (DX_addErr ⟨rfl, rfl, h⟩)

theorem PE_mk {p : String} {tys : List String} (ty m : String) (h : ty ∈ tys) :
    PE p tys ⟨p, ty, m, "error"⟩ := ⟨rfl, rfl, h⟩

theorem PW_mk {p : String} {tys : List String} (ty m : String) (h : ty ∈ tys) :
    PW p tys ⟨p, ty, m, "warning"⟩ := ⟨rfl, rfl, h⟩

theorem DX_validate_action (s : St) (p : String) (data : Omap) :
    DX (PE p actionErrTys) (PW p []) s (validate_action s p data) := by
  simp only [validate_action]
  rcases h1 : oget data "input_schema" with _ | v1 <;>
    rcases h2 : oget data "output_schema" with _ | v2 <;> dsimp only
  · refine DX.trans ?_
      (DX_ite (DX_addErr (PE_mk "invalid_tags" _ (by simp [actionErrTys]))) (DX.rfl _))
    refine DX.trans ?_
      (DX_ite (DX_addErr (PE_mk "invalid_implementation" _ (by simp [actionErrTys]))) (DX.rfl _))
    refine DX.trans ?_ (DX_ite DX_sym_update (DX.rfl _))
    exact DX_check_required (by simp [actionErrTys]) s data _
  · refine DX.trans ?_
      (DX_ite (DX_addErr (PE_mk "invalid_tags" _ (by simp [actionErrTys]))) (DX.rfl _))
    refine DX.trans ?_
      (DX_ite (DX.rfl _) (DX_addErr (PE_mk "invalid_schema" _ (by simp [actionErrTys]))))
    refine DX.trans ?_
      (DX_ite (DX_addErr (PE_mk "invalid_implementation" _ (by simp [actionErrTys]))) (DX.rfl _))
    refine DX.trans ?_ (DX_ite DX_sym_update (DX.rfl _))
    exact DX_check_required (by simp [actionErrTys]) s data _
  · refine DX.trans ?_
      (DX_ite (DX_addErr (PE_mk "invalid_tags" _ (by simp [actionErrTys]))) (DX.rfl _))
    refine DX.trans ?_
      (DX_ite (DX.rfl _) (DX_addErr (PE_mk "invalid_schema" _ (by simp [actionErrTys]))))
    refine DX.trans ?_
      (DX_ite (DX_addErr (PE_mk "invalid_implementation" _ (by simp [actionErrTys]))) (DX.rfl _))
    refine DX.trans ?_ (DX_ite DX_sym_update (DX.rfl _))
    exact DX_check_required (by simp [actionErrTys]) s data _
  · refine DX.trans ?_
      (DX_ite (DX_addErr (PE_mk "invalid_tags" _ (by simp [actionErrTys]))) (DX.rfl _))
    refine DX.trans ?_
      (DX_ite (DX.rfl _) (DX_addErr (PE_mk "invalid_schema" _ (by simp [actionErrTys]))))
    refine DX.trans ?_
      (DX_ite (DX.rfl _) (DX_addErr (PE_mk "invalid_schema" _ (by simp [actionErrTys]))))
    refine DX.trans ?_
      (DX_ite (DX_addErr (PE_mk "invalid_implementation" _ (by simp [actionErrTys]))) (DX.rfl _))
    refine DX.trans ?_ (DX_ite DX_sym_update (DX.rfl _))
    exact DX_check_required (by simp [actionErrTys]) s data _

theorem PW_nil_elim {p : String} {e : ValidationError} {C : Prop} (h : PW p [] e) : C :=
  absurd h.2.2 (List.not_mem_nil _)

theorem DX_schema_field_step (p : String) (oname : Value) (acc : St × List Value × Nat)
    (f : Value) :
    DX (PE p schemaErrTys) (PW p ["unknown_field_type"]) acc.1
      ((schema_field_step p oname acc f).1) := by
  obtain ⟨s, fns, i⟩ := acc
  rcases f with _ | b | n | st | l | fm <;> simp only [schema_field_step] <;> (try dsimp only)
  · exact DX_addErr (PE_mk "invalid_field" _ (by simp [schemaErrTys]))
  · exact DX_addErr (PE_mk "invalid_field" _ (by simp [schemaErrTys]))
  · exact DX_addErr (PE_mk "invalid_field" _ (by simp [schemaErrTys]))
  · exact DX_addErr (PE_mk "invalid_field" _ (by simp [schemaErrTys]))
  · exact DX_addErr (PE_mk "invalid_field" _ (by simp [schemaErrTys]))
  · split
    · exact DX_addErr (PE_mk "missing_field_name" _ (by simp [schemaErrTys]))
    · rcases hty : (oget fm "type").getD Value.vnull with _ | b | n | t | l | mm <;> (try dsimp only) <;> (try refine DX.trans ?_ (DX_ite (DX_addErr (PE_mk "missing_picklist_values" _ (by simp [schemaErrTys]))) (DX.rfl _))) <;> (refine DX.trans ?_ (DX_ite (DX_addWarn (PW_mk "unknown_field_type" _ (by simp))) (DX.rfl _))) <;> (refine DX.trans ?_ (DX_ite DX_sym_update (DX.rfl _))) <;> exact DX_ite (DX_addErr (PE_mk "duplicate_field" _ (by simp [schemaErrTys]))) (DX.rfl _)

theorem DX_validate_schema (s : St) (p : String) (data : Omap) :
    DX (PE p schemaErrTys) (PW p ["unknown_field_type"]) s (validate_schema s p data) := by
  simp only [validate_schema]
  rcases hf : (oget data "fields").getD (.vlist []) with _ | b | n | st | fl | mm <;> (try dsimp only) <;> (try refine DX.trans ?_ (DX_addErr (PE_mk "invalid_fields" _ (by simp [schemaErrTys])))) <;> (try refine DX.trans ?_ (DX_foldl (fun acc => acc.1) (schema_field_step p ((oget data "object").getD Value.vnull)) (fun acc x => DX_schema_field_step p _ acc x) fl _)) <;> (refine DX.trans ?_ (DX_ite DX_sym_update (DX.rfl _))) <;> exact DX_check_required (by simp [schemaErrTys]) s data _

theorem DX_layout_component_step (p : String) (acc : St × Nat) (c : Value) :
    DX (PE p layoutErrTys) (PW p []) acc.1 ((layout_component_step p acc c).1) := by
  obtain ⟨s, i⟩ := acc
  rcases c with _ | b | n | st | l | cm <;> simp only [layout_component_step] <;> (try dsimp only)
  · exact DX_addErr (PE_mk "invalid_component" _ (by simp [layoutErrTys]))
  · exact DX_addErr (PE_mk "invalid_component" _ (by simp [layoutErrTys]))
  · exact DX_addErr (PE_mk "invalid_component" _ (by simp [layoutErrTys]))
  · exact DX_addErr (PE_mk "invalid_component" _ (by simp [layoutErrTys]))
  · exact DX_addErr (PE_mk "invalid_component" _ (by simp [layoutErrTys]))
  · exact DX_ite (DX_addErr (PE_mk "invalid_component_type" _ (by simp [layoutErrTys])))
      (DX.rfl _)

theorem DX_validate_layout (s : St) (p : String) (data : Omap) :
    DX (PE p layoutErrTys) (PW p []) s (validate_layout s p data) := by
  simp only [validate_layout]
  rcases hc : (oget data "components").getD (.vlist []) with _ | b | n | st | cl | mm <;> (try dsimp only) <;> (try refine DX.trans ?_ (DX_addErr (PE_mk "invalid_components" _ (by simp [layoutErrTys])))) <;> (try refine DX.trans ?_ (DX_foldl (fun acc => acc.1) (layout_component_step p) (fun acc x => DX_layout_component_step p acc x) cl _)) <;> exact DX_check_required (by simp [layoutErrTys]) s data _

theorem DX_validate_automation (s : St) (p : String) (data : Omap) :
    DX (PE p automationErrTys) (PW p []) s (validate_automation s p data) := by
  simp only [validate_automation]
  rcases ht : (oget data "trigger").getD (.vmap []) with _ | b | n | st | l | tm <;> rcases ha : (oget data "action").getD (.vmap []) with _ | b2 | n2 | st2 | l2 | am <;> (try dsimp only) <;> (try refine DX.trans ?_ (DX_ite (DX_addErr (PE_mk "missing_action_ref" _ (by simp [automationErrTys]))) (DX.rfl _))) <;> (try refine DX.trans ?_ (DX_ite (DX_addErr (PE_mk "invalid_trigger_type" _ (by simp [automationErrTys]))) (DX.rfl _))) <;> exact DX_check_required (by simp [automationErrTys]) s data _

theorem DX_validate_integration (s : St) (p : String) (data : Omap) :
    DX (PE p integrationErrTys) (PW p []) s (validate_integration s p data) := by
  simp only [validate_integration]
  refine DX.trans ?_ (DX_ite DX_sym_update (DX.rfl _))
  exact DX_check_required (by simp [integrationErrTys]) s data _

theorem DX_validate_form (s : St) (p : String) (data : Omap) :
    DX (PE p formErrTys) (PW p []) s (validate_form s p data) := by
  simp only [validate_form]
  rcases hf : (oget data "fields").getD (.vlist []) with _ | b | n | st | fl | mm <;> (try dsimp only) <;> (try refine DX.trans ?_ (DX_addErr (PE_mk "invalid_fields" _ (by simp [formErrTys])))) <;> exact DX_check_required (by simp [formErrTys]) s data _

theorem DX_validate_file (s : St) (f : SrcFile) :
    DX (PE f.path fileErrTys) (PW f.path fileWarnTys) s (validate_file s f) := by
  obtain ⟨p, pr⟩ := f
  rcases pr with e | e | v
  · exact DX_addErr (PE_mk "file_error" _ (by simp [fileErrTys]))
  · exact DX_addErr (PE_mk "yaml_syntax" _ (by simp [fileErrTys]))
  · rcases v with _ | b | n | st | l | data <;> simp only [validate_file] <;> (try dsimp only)
    · exact DX_addErr (PE_mk "invalid_format" _ (by simp [fileErrTys]))
    · exact DX_addErr (PE_mk "invalid_format" _ (by simp [fileErrTys]))
    · exact DX_addErr (PE_mk "invalid_format" _ (by simp [fileErrTys]))
    · exact DX_addErr (PE_mk "invalid_format" _ (by simp [fileErrTys]))
    · exact DX_addErr (PE_mk "invalid_format" _ (by simp [fileErrTys]))
    · split_ifs with h1 h2 h3 h4 h5 h6 h7
      · exact DX.trans DX_af_update (DX_addErr (PE_mk "missing_type" _ (by simp [fileErrTys])))
      · refine DX.trans DX_af_update ((DX_validate_action _ _ _).mono (fun e he => PE_sub ?_ he) ?_)
        · intro x hx; simp only [fileErrTys, List.mem_append]; tauto
        · intro e he; exact PW_nil_elim he
      · refine DX.trans DX_af_update ((DX_validate_schema _ _ _).mono (fun e he => PE_sub ?_ he) (fun e he => PW_sub ?_ he))
        · intro x hx; simp only [fileErrTys, List.mem_append]; tauto
        · intro x hx; simp only [fileWarnTys] at hx ⊢; simp at hx; simp [hx]
      · refine DX.trans DX_af_update ((DX_validate_layout _ _ _).mono (fun e he => PE_sub ?_ he) ?_)
        · intro x hx; simp only [fileErrTys, List.mem_append]; tauto
        · intro e he; exact PW_nil_elim he
      · refine DX.trans DX_af_update ((DX_validate_automation _ _ _).mono (fun e he => PE_sub ?_ he) ?_)
        · intro x hx; simp only [fileErrTys, List.mem_append]; tauto
        · intro e he; exact PW_nil_elim he
      · refine DX.trans DX_af_update ((DX_validate_integration _ _ _).mono (fun e he => PE_sub ?_ he) ?_)
        · intro x hx; simp only [fileErrTys, List.mem_append]; tauto
        · intro e he; exact PW_nil_elim he
      · refine DX.trans DX_af_update ((DX_validate_form _ _ _).mono (fun e he => PE_sub ?_ he) ?_)
        · intro x hx; simp only [fileErrTys, List.mem_append]; tauto
        · intro e he; exact PW_nil_elim he
      · exact DX.trans DX_af_update (DX_addWarn (PW_mk "unknown_type" _ (by simp [fileWarnTys])))

/-- Error categories the cross-reference resolver can emit. -/
def crossErrTys : List String :=
  ["missing_action_reference", "missing_field_reference", "missing_schema_reference",
   "missing_integration_reference"]

/-- Warning categories the cross-reference resolver can emit. -/
def crossWarnTys : List String := ["missing_schema_reference"]

/-- The phase-2 steps never touch the symbol table or the document set. -/
def SymAF (s r : St) : Prop := r.sym = s.sym ∧ r.all_files = s.all_files

theorem SymAF_rfl (s : St) : SymAF s s := ⟨Eq.refl _, Eq.refl _⟩

theorem SymAF_trans {s t r : St} (h1 : SymAF s t) (h2 : SymAF t r) : SymAF s r :=
  ⟨h2.1.trans h1.1, h2.2.trans h1.2⟩

theorem SymAF_addErr {s : St} {p ty m : String} : SymAF s (addErr s p ty m) := ⟨Eq.refl _, Eq.refl _⟩

theorem SymAF_addWarn {s : St} {p ty m : String} : SymAF s (addWarn s p ty m) := ⟨Eq.refl _, Eq.refl _⟩

theorem SymAF_ite {s a b : St} {c : Prop} [Decidable c] (ha : SymAF s a) (hb : SymAF s b) :
    SymAF s (if c then a else b) := by
  split <;> assumption

theorem SymAF_foldl {α : Type} (step : St → α → St) (h : ∀ s x, SymAF s (step s x)) :
    ∀ (l : List α) (s : St), SymAF s (List.foldl step s l)
  | [], _ => SymAF_rfl _
  | x :: xs, s => SymAF_trans (h s x) (SymAF_foldl step h xs (step s x))

theorem DXC_validate_field_reference (s : St) (p : String) (oname : Value) (fn : String) :
    DX (PE p crossErrTys) (PW p crossWarnTys) s (validate_field_reference s p oname fn) ∧
      SymAF s (validate_field_reference s p oname fn) := by
  simp only [validate_field_reference]
  rcases h : splitDot fn with _ | ⟨obj, fld⟩ <;> (try dsimp only)
  · rcases h2 : lookupSF s.sym.schema_fields oname with _ | fset <;> (try dsimp only)
    · exact ⟨DX.rfl _, SymAF_rfl _⟩
    · exact ⟨DX_ite (DX.rfl _) (DX_addErr (PE_mk "missing_field_reference" _ (by simp [crossErrTys]))), SymAF_ite (SymAF_rfl _) SymAF_addErr⟩
  · rcases h2 : lookupSF s.sym.schema_fields (.vstr obj) with _ | fset <;> (try dsimp only)
    · exact ⟨DX.rfl _, SymAF_rfl _⟩
    · exact ⟨DX_ite (DX.rfl _) (DX_addErr (PE_mk "missing_field_reference" _ (by simp [crossErrTys]))), SymAF_ite (SymAF_rfl _) SymAF_addErr⟩

theorem DXC_layout_ref_field_step (p : String) (lname : Value) (s : St) (f : Value) :
    DX (PE p crossErrTys) (PW p crossWarnTys) s (layout_ref_field_step p lname s f) ∧
      SymAF s (layout_ref_field_step p lname s f) := by
  rcases f with _ | b | n | st | l | fm <;> simp only [layout_ref_field_step]
  · exact ⟨DX.rfl _, SymAF_rfl _⟩
  · exact ⟨DX.rfl _, SymAF_rfl _⟩
  · exact ⟨DX.rfl _, SymAF_rfl _⟩
  · exact DXC_validate_field_reference s p lname st
  · exact ⟨DX.rfl _, SymAF_rfl _⟩
  · rcases h : oget fm "name" with _ | v <;> (try dsimp only)
    · exact ⟨DX.rfl _, SymAF_rfl _⟩
    · rcases v with _ | b | n | nm | l | mm <;> (try dsimp only)
      · exact ⟨DX.rfl _, SymAF_rfl _⟩
      · exact ⟨DX.rfl _, SymAF_rfl _⟩
      · exact ⟨DX.rfl _, SymAF_rfl _⟩
      · exact DXC_validate_field_reference s p lname nm
      · exact ⟨DX.rfl _, SymAF_rfl _⟩
      · exact ⟨DX.rfl _, SymAF_rfl _⟩

theorem DXC_layout_ref_component_step (p : String) (lname : Value) (s : St) (c : Value) :
    DX (PE p crossErrTys) (PW p crossWarnTys) s (layout_ref_component_step p lname s c) ∧
      SymAF s (layout_ref_component_step p lname s c) := by
  rcases c with _ | b | n | st | l | cm <;> simp only [layout_ref_component_step]
  · exact ⟨DX.rfl _, SymAF_rfl _⟩
  · exact ⟨DX.rfl _, SymAF_rfl _⟩
  · exact ⟨DX.rfl _, SymAF_rfl _⟩
  · exact ⟨DX.rfl _, SymAF_rfl _⟩
  · exact ⟨DX.rfl _, SymAF_rfl _⟩
  · rcases h : pyIter ((oget cm "fields").getD (.vlist [])) with _ | fl <;> (try dsimp only)
    · exact ⟨DX.rfl _, SymAF_rfl _⟩
    · exact ⟨DX_foldl id (layout_ref_field_step p lname) (fun acc x => (DXC_layout_ref_field_step p lname acc x).1) fl s, SymAF_foldl (layout_ref_field_step p lname) (fun acc x => (DXC_layout_ref_field_step p lname acc x).2) fl s⟩

theorem DXC_validate_layout_references (s : St) (p : String) (data : Omap) :
    DX (PE p crossErrTys) (PW p crossWarnTys) s (validate_layout_references s p data) ∧
      SymAF s (validate_layout_references s p data) := by
  simp only [validate_layout_references]
  rcases h : pyIter ((oget data "components").getD (.vlist [])) with _ | cl <;> (try dsimp only)
  · exact ⟨DX_ite (DX_addWarn (PW_mk "missing_schema_reference" _ (by simp [crossWarnTys]))) (DX.rfl _), SymAF_ite SymAF_addWarn (SymAF_rfl _)⟩
  · constructor
    · refine DX.trans ?_ (DX_foldl id (layout_ref_component_step p _) (fun acc x => (DXC_layout_ref_component_step p _ acc x).1) cl _)
      exact DX_ite (DX_addWarn (PW_mk "missing_schema_reference" _ (by simp [crossWarnTys]))) (DX.rfl _)
    · refine SymAF_trans ?_ (SymAF_foldl (layout_ref_component_step p _) (fun acc x => (DXC_layout_ref_component_step p _ acc x).2) cl _)
      exact SymAF_ite SymAF_addWarn (SymAF_rfl _)

theorem DXC_form_ref_field_step (p : String) (s : St) (f : Value) :
    DX (PE p crossErrTys) (PW p crossWarnTys) s (form_ref_field_step p s f) ∧
      SymAF s (form_ref_field_step p s f) := by
  rcases f with _ | b | n | st | l | fm <;> simp only [form_ref_field_step]
  · exact ⟨DX.rfl _, SymAF_rfl _⟩
  · exact ⟨DX.rfl _, SymAF_rfl _⟩
  · exact ⟨DX.rfl _, SymAF_rfl _⟩
  · exact ⟨DX.rfl _, SymAF_rfl _⟩
  · exact ⟨DX.rfl _, SymAF_rfl _⟩
  · rcases h : oget fm "maps_to" with _ | v <;> (try dsimp only)
    · exact ⟨DX.rfl _, SymAF_rfl _⟩
    · rcases v with _ | b | n | m | l | mm <;> (try dsimp only)
      · exact ⟨DX.rfl _, SymAF_rfl _⟩
      · exact ⟨DX.rfl _, SymAF_rfl _⟩
      · exact ⟨DX.rfl _, SymAF_rfl _⟩
      · rcases h2 : splitDot m with _ | ⟨obj, fld⟩ <;> (try dsimp only)
        · exact ⟨DX.rfl _, SymAF_rfl _⟩
        · rcases h3 : lookupSF s.sym.schema_fields (.vstr obj) with _ | fset <;> (try dsimp only)
          · exact ⟨DX.rfl _, SymAF_rfl _⟩
          · exact ⟨DX_ite (DX.rfl _) (DX_addErr (PE_mk "missing_field_reference" _ (by simp [crossErrTys]))), SymAF_ite (SymAF_rfl _) SymAF_addErr⟩
      · exact ⟨DX.rfl _, SymAF_rfl _⟩
      · exact ⟨DX.rfl _, SymAF_rfl _⟩

theorem DXC_validate_form_references (s : St) (p : String) (data : Omap) :
    DX (PE p crossErrTys) (PW p crossWarnTys) s (validate_form_references s p data) ∧
      SymAF s (validate_form_references s p data) := by
  simp only [validate_form_references]
  rcases h : pyIter ((oget data "fields").getD (.vlist [])) with _ | fl <;> (try dsimp only)
  · exact ⟨DX_ite (DX_addErr (PE_mk "missing_schema_reference" _ (by simp [crossErrTys]))) (DX.rfl _), SymAF_ite SymAF_addErr (SymAF_rfl _)⟩
  · constructor
    · refine DX.trans ?_ (DX_foldl id (form_ref_field_step p) (fun acc x => (DXC_form_ref_field_step p acc x).1) fl _)
      exact DX_ite (DX_addErr (PE_mk "missing_schema_reference" _ (by simp [crossErrTys]))) (DX.rfl _)
    · refine SymAF_trans ?_ (SymAF_foldl (form_ref_field_step p) (fun acc x => (DXC_form_ref_field_step p acc x).2) fl _)
      exact SymAF_ite SymAF_addErr (SymAF_rfl _)

theorem DXC_validate_automation_references (s : St) (p : String) (data : Omap) :
    DX (PE p crossErrTys) (PW p crossWarnTys) s (validate_automation_references s p data) ∧
      SymAF s (validate_automation_references s p data) := by
  simp only [validate_automation_references]
  rcases h : (oget data "action").getD (.vmap []) with _ | b | n | st | l | am <;> (try dsimp only)
  · exact ⟨DX.rfl _, SymAF_rfl _⟩
  · exact ⟨DX.rfl _, SymAF_rfl _⟩
  · exact ⟨DX.rfl _, SymAF_rfl _⟩
  · exact ⟨DX.rfl _, SymAF_rfl _⟩
  · exact ⟨DX.rfl _, SymAF_rfl _⟩
  · exact ⟨DX_ite (DX_addErr (PE_mk "missing_action_reference" _ (by simp [crossErrTys]))) (DX.rfl _), SymAF_ite SymAF_addErr (SymAF_rfl _)⟩

theorem DXC_validate_integration_references (s : St) (p : String) (data : Omap) :
    DX (PE p crossErrTys) (PW p crossWarnTys) s (validate_integration_references s p data) ∧
      SymAF s (validate_integration_references s p data) := by
  simp only [validate_integration_references]
  rcases h : (oget data "defaults").getD (.vmap []) with _ | b | n | st | l | dm <;> (try dsimp only)
  · exact ⟨DX.rfl _, SymAF_rfl _⟩
  · exact ⟨DX.rfl _, SymAF_rfl _⟩
  · exact ⟨DX.rfl _, SymAF_rfl _⟩
  · exact ⟨DX.rfl _, SymAF_rfl _⟩
  · exact ⟨DX.rfl _, SymAF_rfl _⟩
  · exact ⟨DX_ite (DX_addErr (PE_mk "missing_integration_reference" _ (by simp [crossErrTys]))) (DX.rfl _), SymAF_ite SymAF_addErr (SymAF_rfl _)⟩

theorem DXC_cross_file_step (s : St) (pd : String × Omap) :
    DX (PE pd.1 crossErrTys) (PW pd.1 crossWarnTys) s (cross_file_step s pd) ∧
      SymAF s (cross_file_step s pd) := by
  simp only [cross_file_step]
  split_ifs with h1 h2 h3 h4
  · exact DXC_validate_automation_references s pd.1 pd.2
  · exact DXC_validate_layout_references s pd.1 pd.2
  · exact DXC_validate_form_references s pd.1 pd.2
  · exact DXC_validate_integration_references s pd.1 pd.2
  · exact ⟨DX.rfl _, SymAF_rfl _⟩

theorem DX_phase1_fold (fs : List SrcFile) (s : St) :
    DX (fun e => e.file_path ∈ fs.map SrcFile.path ∧ e.severity = "error" ∧
          e.error_type ∈ fileErrTys)
       (fun e => e.file_path ∈ fs.map SrcFile.path ∧ e.severity = "warning" ∧
          e.error_type ∈ fileWarnTys)
       s (fs.foldl validate_file s) := by
  induction fs generalizing s with
  | nil => exact DX.rfl _
  | cons f fs ih =>
    refine DX.trans ((DX_validate_file s f).mono ?_ ?_)
      ((ih (validate_file s f)).mono ?_ ?_)
    · exact fun e h => ⟨by simp [h.1], h.2.1, h.2.2⟩
    · exact fun e h => ⟨by simp [h.1], h.2.1, h.2.2⟩
    · exact fun e h => ⟨by simp only [List.map_cons, List.mem_cons]; exact Or.inr h.1, h.2.1, h.2.2⟩
    · exact fun e h => ⟨by simp only [List.map_cons, List.mem_cons]; exact Or.inr h.1, h.2.1, h.2.2⟩

theorem DX_cross_fold (l : List (String × Omap)) (s : St) :
    DX (fun e => e.file_path ∈ l.map Prod.fst ∧ e.severity = "error" ∧
          e.error_type ∈ crossErrTys)
       (fun e => e.file_path ∈ l.map Prod.fst ∧ e.severity = "warning" ∧
          e.error_type ∈ crossWarnTys)
       s (l.foldl cross_file_step s) := by
  induction l generalizing s with
  | nil => exact DX.rfl _
  | cons pd l ih =>
    refine DX.trans (((DXC_cross_file_step s pd).1).mono ?_ ?_)
      ((ih (cross_file_step s pd)).mono ?_ ?_)
    · exact fun e h => ⟨by simp [h.1], h.2.1, h.2.2⟩
    · exact fun e h => ⟨by simp [h.1], h.2.1, h.2.2⟩
    · exact fun e h => ⟨by simp only [List.map_cons, List.mem_cons]; exact Or.inr h.1, h.2.1, h.2.2⟩
    · exact fun e h => ⟨by simp only [List.map_cons, List.mem_cons]; exact Or.inr h.1, h.2.1, h.2.2⟩

theorem SymAF_cross (s : St) : SymAF s (validate_cross_file_references s) :=
  SymAF_foldl cross_file_step (fun t x => (DXC_cross_file_step t x).2) s.all_files s

theorem DX_validate_syntax_phase (s : St) (t : Target) :
    DX (fun e => e.severity = "error") (fun e => e.severity = "warning") s
      (validate_syntax_phase s t) := by
  cases t with
  | files fs => exact (DX_phase1_fold fs s).mono (fun e h => h.2.1) (fun e h => h.2.1)
  | notFound n => exact DX_addErr rfl

theorem DX_run (t : Target) (so cfo : Bool) :
    DX (fun e => e.severity = "error") (fun e => e.severity = "warning") initSt
      (validate_all t so cfo).2 := by
  simp only [validate_all]
  have hcross : ∀ s : St, DX (fun e => e.severity = "error")
      (fun e => e.severity = "warning") s (validate_cross_file_references s) := fun s =>
    (DX_cross_fold s.all_files s).mono (fun e h => h.2.1) (fun e h => h.2.1)
  cases so <;> cases cfo <;> simp only [Bool.false_eq_true, if_false, if_true, ite_true, ite_false]
  · exact DX.trans (DX_validate_syntax_phase initSt t) (hcross _)
  · exact hcross _
  · exact DX_validate_syntax_phase initSt t
  · exact DX.rfl _

theorem countSeverity_append (a b : List ValidationError) (sev : String) :
    countSeverity (a ++ b) sev = countSeverity a sev + countSeverity b sev := by
  simp [countSeverity, List.filter_append]

/-- C2 — For every validation run, `validate_all` returns `true` (and the
process exit status is 0) if and only if zero error-severity diagnostics
were recorded during the run; warning-severity diagnostics never affect
the verdict or the exit status. -/
theorem C2_verdict_iff_no_error_diagnostics (t : Target) (so cfo : Bool) :
    ((validate_all t so cfo).1 = true ↔
        countSeverity (runDiagnostics t so cfo) "error" = 0) ∧
    (mainExitCode t so cfo = 0 ↔
        countSeverity (runDiagnostics t so cfo) "error" = 0) := by
  obtain ⟨⟨dE, hE, hpE⟩, ⟨dW, hW, hpW⟩⟩ := DX_run t so cfo
  have hE' : (validate_all t so cfo).2.errors = dE := by simpa [initSt] using hE
  have hW' : (validate_all t so cfo).2.warnings = dW := by simpa [initSt] using hW
  have hcount : countSeverity (runDiagnostics t so cfo) "error" = dE.length := by
    rw [runDiagnostics, hE', hW', countSeverity_append]
    have h1 : countSeverity dE "error" = dE.length := by
      unfold countSeverity
      rw [List.filter_eq_self.2 (fun e he => by simp [hpE e he])]
    have h2 : countSeverity dW "error" = 0 := by
      unfold countSeverity
      rw [List.length_eq_zero, List.filter_eq_nil_iff]
      intro e he
      simp [hpW e he]
    rw [h1, h2, Nat.add_zero]
  have hverdict : (validate_all t so cfo).1 = ((validate_all t so cfo).2.errors.length == 0) := by
    simp only [validate_all]
  constructor
  · rw [hcount, hverdict, hE']
    simp [Nat.beq_eq_true_eq]
  · rw [hcount]
    unfold mainExitCode
    rw [hverdict, hE']
    constructor
    · intro h
      by_contra hne
      have : ¬(dE.length == 0) = true := by simpa using hne
      simp [this] at h
    · intro h
      simp [h]

theorem countPT_addErr (s : St) (p' ty' m p ty : String) :
    countPT (addErr s p' ty' m).errors p ty =
      countPT s.errors p ty + (if p' = p ∧ ty' = ty then 1 else 0) := by
  by_cases h : p' = p ∧ ty' = ty
  · obtain ⟨rfl, rfl⟩ := h
    rw [countPT_addErr_self, if_pos ⟨rfl, rfl⟩]
  · rw [countPT_addErr_ne s m h, if_neg h, Nat.add_zero]

theorem countPT_addWarn_errors (s : St) (p' ty' m p ty : String) :
    countPT (addWarn s p' ty' m).errors p ty = countPT s.errors p ty := rfl

theorem countPT_eq_of_PE_DX {Pw : ValidationError → Prop} {p' : String} {tys : List String}
    {s r : St} (h : DX (PE p' tys) Pw s r) {p ty : String} (hty : ty ∉ tys) :
    countPT r.errors p ty = countPT s.errors p ty :=
  countPT_eq_of_DX h (fun _ hpe hc => hty (hc.2 ▸ hpe.2.2))

theorem countPT_check_required (s : St) (p' : String) (data : Omap) (req : List String)
    {p ty : String} (hty : ty ≠ "missing_required_field") :
    countPT (check_required_fields s p' data req).errors p ty = countPT s.errors p ty :=
  countPT_eq_of_PE_DX
    (@DX_check_required p' ["missing_required_field"] [] (by simp) s data req)
    (by simpa using hty)

/-- The action document of the C8 counterexample: `tags` is present and
is not a sequence, but is falsy (the empty string). -/
def actionFalsyTags : Omap :=
  [("type", .vstr "action"), ("name", .vstr "n"), ("description", .vstr "d"),
   ("implementation", .vstr "python"), ("tags", .vstr "")]

/-- C8 counterexample — an action document whose `tags` value is the
empty string: `tags` is present and is not a sequence, yet the full run
emits zero `invalid_tags` diagnostics (the source guards the check with
Python truthiness, so falsy non-sequence values slip through). -/
theorem C8_counterexample_falsy_tags :
    oget actionFalsyTags "tags" = some (.vstr "") ∧
    (Value.vstr "").isList = false ∧
    countPT (validate_all (.files [⟨"a.ps", .parsed (.vmap actionFalsyTags)⟩]) false false).2.errors
      "a.ps" "invalid_tags" = 0 := by
  decide

/-- C8 amended — for every action document, exactly one `invalid_tags`
error (severity error) is emitted iff the `tags` key is present with a
truthy value that is not a sequence; if `tags` is absent, a sequence, or
falsy, no `invalid_tags` diagnostic is emitted. -/
theorem C8_invalid_tags_iff_truthy_nonlist (s : St) (p : String) (data : Omap) :
    countPT (validate_action s p data).errors p "invalid_tags" =
      countPT s.errors p "invalid_tags" +
        (if truthy ((oget data "tags").getD (.vlist [])) = true ∧
            ¬((oget data "tags").getD (.vlist [])).isList = true then 1 else 0) := by
  simp only [validate_action]
  rcases h1 : oget data "input_schema" with _ | v1 <;>
    rcases h2 : oget data "output_schema" with _ | v2 <;>
    (try dsimp only) <;> split_ifs <;>
    simp +decide [countPT_addErr, countPT_check_required]

theorem SymAF_check_required (s : St) (p : String) (data : Omap) (req : List String) :
    SymAF s (check_required_fields s p data req) := by
  unfold check_required_fields
  exact SymAF_foldl _ (fun t x => by split; exacts [SymAF_rfl _, SymAF_addErr]) req s

theorem check_required_sym (s : St) (p : String) (data : Omap) (req : List String) :
    (check_required_fields s p data req).sym = s.sym :=
  (SymAF_check_required s p data req).1

theorem check_required_af (s : St) (p : String) (data : Omap) (req : List String) :
    (check_required_fields s p data req).all_files = s.all_files :=
  (SymAF_check_required s p data req).2

/-! ## Pure mirrors of the phase-1 symbol-table updates

Each `*_upd` function restates, as a pure function of the relevant
registry and the incoming file, how one `_validate_file` call evolves
that registry; the correspondence theorems below prove them equal to the
stateful pipeline. -/

/-- One field-loop iteration's effect on `schema_fields`
(the `self.schema_fields[object_name].add(field_name)` line). -/
def symUpdSchemaFieldStep (oname : Value) (sf : List (Value × List Value)) (field : Value) :
    List (Value × List Value) :=
  match field with
  | .vmap fm =>
    let fname := (oget fm "name").getD .vnull
    if truthy fname = false then sf
    else if truthy oname then sfAdd sf oname fname else sf
  | _ => sf

/-- How one file evolves the registered action names. -/
def action_names_upd (an : List Value) (f : SrcFile) : List Value :=
  match f.parse with
  | .parsed (.vmap data) =>
    let ft := (oget data "type").getD .vnull
    if truthy ft = false then an
    else if ft = .vstr "action" then
      if truthy ((oget data "name").getD .vnull) then
        insertSet an ((oget data "name").getD .vnull)
      else an
    else an
  | _ => an

/-- How one file evolves the per-object field registry. -/
def schema_fields_upd (sf : List (Value × List Value)) (f : SrcFile) :
    List (Value × List Value) :=
  match f.parse with
  | .parsed (.vmap data) =>
    let ft := (oget data "type").getD .vnull
    if truthy ft = false then sf
    else if ft = .vstr "schema" then
      let oname := (oget data "object").getD .vnull
      let sf1 := if truthy oname then sfSet sf oname [] else sf
      match (oget data "fields").getD (.vlist []) with
      | .vlist fl => fl.foldl (symUpdSchemaFieldStep oname) sf1
      | _ => sf1
    else sf
  | _ => sf

/-- How one file evolves the project document set. -/
def all_files_upd (af : List (String × Omap)) (f : SrcFile) : List (String × Omap) :=
  match f.parse with
  | .parsed (.vmap data) => dictSet af f.path data
  | _ => af

theorem schema_loop_state (p : String) (oname : Value) :
    ∀ (fl : List Value) (acc : St × List Value × Nat),
      ((fl.foldl (schema_field_step p oname) acc).1).sym.action_names =
          acc.1.sym.action_names ∧
      ((fl.foldl (schema_field_step p oname) acc).1).sym.schema_fields =
          fl.foldl (symUpdSchemaFieldStep oname) acc.1.sym.schema_fields ∧
      ((fl.foldl (schema_field_step p oname) acc).1).all_files = acc.1.all_files := by
  intro fl
  induction fl with
  | nil => exact fun acc => ⟨rfl, rfl, rfl⟩
  | cons fld fl ih =>
    intro acc
    obtain ⟨s, fns, i⟩ := acc
    have step :
        ((schema_field_step p oname (s, fns, i) fld).1).sym.action_names =
            s.sym.action_names ∧
        ((schema_field_step p oname (s, fns, i) fld).1).sym.schema_fields =
            symUpdSchemaFieldStep oname s.sym.schema_fields fld ∧
        ((schema_field_step p oname (s, fns, i) fld).1).all_files = s.all_files := by
      rcases fld with _ | b | n | st | l | fm <;>
        simp only [schema_field_step, symUpdSchemaFieldStep] <;> (try dsimp only) <;>
        (try exact ⟨rfl, rfl, rfl⟩)
      split
      · exact ⟨rfl, rfl, rfl⟩
      · rcases hty : (oget fm "type").getD Value.vnull with _ | b | n | t | l | mm <;>
          (try dsimp only) <;> split_ifs <;> simp [addErr, addWarn]
    have hrec := ih (schema_field_step p oname (s, fns, i) fld)
    rcases hstep : schema_field_step p oname (s, fns, i) fld with ⟨s2, fns2, i2⟩
    rw [hstep] at step hrec
    refine ⟨?_, ?_, ?_⟩
    · simp only [List.foldl_cons, hstep]
      exact hrec.1.trans step.1
    · simp only [List.foldl_cons, hstep]
      rw [hrec.2.1, step.2.1]
    · simp only [List.foldl_cons, hstep]
      exact hrec.2.2.trans step.2.2

theorem validate_action_state (s : St) (p : String) (data : Omap) :
    (validate_action s p data).sym.action_names =
        (if truthy ((oget data "name").getD .vnull) then
          insertSet s.sym.action_names ((oget data "name").getD .vnull)
        else s.sym.action_names) ∧
    (validate_action s p data).sym.schema_fields = s.sym.schema_fields ∧
    (validate_action s p data).all_files = s.all_files := by
  simp only [validate_action]
  rcases h1 : oget data "input_schema" with _ | v1 <;>
    rcases h2 : oget data "output_schema" with _ | v2 <;>
    (try dsimp only) <;> split_ifs <;>
    simp [addErr, check_required_sym, check_required_af]

theorem validate_schema_state (s : St) (p : String) (data : Omap) :
    (validate_schema s p data).sym.action_names = s.sym.action_names ∧
    (validate_schema s p data).sym.schema_fields =
      (match (oget data "fields").getD (.vlist []) with
       | .vlist fl =>
         fl.foldl (symUpdSchemaFieldStep ((oget data "object").getD .vnull))
           (if truthy ((oget data "object").getD .vnull) then
             sfSet s.sym.schema_fields ((oget data "object").getD .vnull) []
           else s.sym.schema_fields)
       | _ =>
         if truthy ((oget data "object").getD .vnull) then
           sfSet s.sym.schema_fields ((oget data "object").getD .vnull) []
         else s.sym.schema_fields) ∧
    (validate_schema s p data).all_files = s.all_files := by
  simp only [validate_schema]
  rcases hf : (oget data "fields").getD (.vlist []) with _ | b | n | st | fl | mm <;> (try dsimp only)
  · split_ifs <;> simp [addErr, check_required_sym, check_required_af]
  · split_ifs <;> simp [addErr, check_required_sym, check_required_af]
  · split_ifs <;> simp [addErr, check_required_sym, check_required_af]
  · split_ifs <;> simp [addErr, check_required_sym, check_required_af]
  · refine ⟨?_, ?_, ?_⟩
    · rw [(schema_loop_state _ _ fl _).1]
      split_ifs <;> simp [check_required_sym]
    · rw [(schema_loop_state _ _ fl _).2.1]
      split_ifs <;> simp [check_required_sym]
    · rw [(schema_loop_state _ _ fl _).2.2]
      split_ifs <;> simp [check_required_af]
  · split_ifs <;> simp [addErr, check_required_sym, check_required_af]

theorem layout_loop_state (p : String) :
    ∀ (cl : List Value) (acc : St × Nat),
      ((cl.foldl (layout_component_step p) acc).1).sym = acc.1.sym ∧
      ((cl.foldl (layout_component_step p) acc).1).all_files = acc.1.all_files := by
  intro cl
  induction cl with
  | nil => exact fun acc => ⟨rfl, rfl⟩
  | cons c cl ih =>
    intro acc
    obtain ⟨s, i⟩ := acc
    have hstep : ((layout_component_step p (s, i) c).1).sym = s.sym ∧
        ((layout_component_step p (s, i) c).1).all_files = s.all_files := by
      rcases c with _ | b | n | st | l | cm <;> simp only [layout_component_step] <;>
        (try dsimp only) <;> (try split_ifs) <;> simp [addErr]
    have hrec := ih (layout_component_step p (s, i) c)
    simp only [List.foldl_cons]
    exact ⟨hrec.1.trans hstep.1, hrec.2.trans hstep.2⟩

theorem validate_layout_state (s : St) (p : String) (data : Omap) :
    (validate_layout s p data).sym.action_names = s.sym.action_names ∧
    (validate_layout s p data).sym.schema_fields = s.sym.schema_fields ∧
    (validate_layout s p data).all_files = s.all_files := by
  simp only [validate_layout]
  rcases hc : (oget data "components").getD (.vlist []) with _ | b | n | st | cl | mm <;>
    (try dsimp only)
  · simp [addErr, check_required_sym, check_required_af]
  · simp [addErr, check_required_sym, check_required_af]
  · simp [addErr, check_required_sym, check_required_af]
  · simp [addErr, check_required_sym, check_required_af]
  · refine ⟨?_, ?_, ?_⟩
    · rw [(layout_loop_state _ cl _).1, check_required_sym]
    · rw [(layout_loop_state _ cl _).1, check_required_sym]
    · rw [(layout_loop_state _ cl _).2, check_required_af]
  · simp [addErr, check_required_sym, check_required_af]

theorem validate_automation_state (s : St) (p : String) (data : Omap) :
    (validate_automation s p data).sym.action_names = s.sym.action_names ∧
    (validate_automation s p data).sym.schema_fields = s.sym.schema_fields ∧
    (validate_automation s p data).all_files = s.all_files := by
  simp only [validate_automation]
  rcases ht : (oget data "trigger").getD (.vmap []) with _ | b | n | st | l | tm <;>
    rcases ha : (oget data "action").getD (.vmap []) with _ | b2 | n2 | st2 | l2 | am <;>
    (try dsimp only) <;> (try split_ifs) <;>
    simp [addErr, check_required_sym, check_required_af]

theorem validate_integration_state (s : St) (p : String) (data : Omap) :
    (validate_integration s p data).sym.action_names = s.sym.action_names ∧
    (validate_integration s p data).sym.schema_fields = s.sym.schema_fields ∧
    (validate_integration s p data).all_files = s.all_files := by
  simp only [validate_integration]
  split_ifs <;> simp [addErr, check_required_sym, check_required_af]

theorem validate_form_state (s : St) (p : String) (data : Omap) :
    (validate_form s p data).sym.action_names = s.sym.action_names ∧
    (validate_form s p data).sym.schema_fields = s.sym.schema_fields ∧
    (validate_form s p data).all_files = s.all_files := by
  simp only [validate_form]
  rcases hf : (oget data "fields").getD (.vlist []) with _ | b | n | st | fl | mm <;>
    (try dsimp only) <;>
    simp [addErr, check_required_sym, check_required_af]

theorem validate_file_state (s : St) (f : SrcFile) :
    (validate_file s f).sym.action_names = action_names_upd s.sym.action_names f ∧
    (validate_file s f).sym.schema_fields = schema_fields_upd s.sym.schema_fields f ∧
    (validate_file s f).all_files = all_files_upd s.all_files f := by
  obtain ⟨p, pr⟩ := f
  rcases pr with e | e | v
  · exact ⟨rfl, rfl, rfl⟩
  · exact ⟨rfl, rfl, rfl⟩
  · rcases v with _ | b | n | st | l | data
    · exact ⟨rfl, rfl, rfl⟩
    · exact ⟨rfl, rfl, rfl⟩
    · exact ⟨rfl, rfl, rfl⟩
    · exact ⟨rfl, rfl, rfl⟩
    · exact ⟨rfl, rfl, rfl⟩
    · simp only [validate_file, action_names_upd, schema_fields_upd, all_files_upd]
      by_cases h1 : truthy ((oget data "type").getD .vnull) = false
      · simp only [if_pos h1]
        exact ⟨rfl, rfl, rfl⟩
      · simp only [if_neg h1]
        by_cases h2 : (oget data "type").getD .vnull = .vstr "action"
        · have hns : ¬((oget data "type").getD .vnull = .vstr "schema") := by
            rw [h2]
            simp
          simp only [if_pos h2, if_neg hns]
          exact ⟨(validate_action_state _ p data).1, (validate_action_state _ p data).2.1,
            (validate_action_state _ p data).2.2⟩
        · simp only [if_neg h2]
          by_cases h3 : (oget data "type").getD .vnull = .vstr "schema"
          · simp only [if_pos h3]
            exact ⟨(validate_schema_state _ p data).1, (validate_schema_state _ p data).2.1,
              (validate_schema_state _ p data).2.2⟩
          · simp only [if_neg h3]
            by_cases h4 : (oget data "type").getD .vnull = .vstr "layout"
            · simp only [if_pos h4]
              exact ⟨(validate_layout_state _ p data).1, (validate_layout_state _ p data).2.1,
                (validate_layout_state _ p data).2.2⟩
            · simp only [if_neg h4]
              by_cases h5 : (oget data "type").getD .vnull = .vstr "automation"
              · simp only [if_pos h5]
                exact ⟨(validate_automation_state _ p data).1,
                  (validate_automation_state _ p data).2.1,
                  (validate_automation_state _ p data).2.2⟩
              · simp only [if_neg h5]
                by_cases h6 : (oget data "type").getD .vnull = .vstr "integration"
                · simp only [if_pos h6]
                  exact ⟨(validate_integration_state _ p data).1,
                    (validate_integration_state _ p data).2.1,
                    (validate_integration_state _ p data).2.2⟩
                · simp only [if_neg h6]
                  by_cases h7 : (oget data "type").getD .vnull = .vstr "form"
                  · simp only [if_pos h7]
                    exact ⟨(validate_form_state _ p data).1, (validate_form_state _ p data).2.1,
                      (validate_form_state _ p data).2.2⟩
                  · simp only [if_neg h7]
                    exact ⟨rfl, rfl, rfl⟩

theorem phase1_state (fs : List SrcFile) (s : St) :
    (fs.foldl validate_file s).sym.action_names =
        fs.foldl action_names_upd s.sym.action_names ∧
    (fs.foldl validate_file s).sym.schema_fields =
        fs.foldl schema_fields_upd s.sym.schema_fields ∧
    (fs.foldl validate_file s).all_files = fs.foldl all_files_upd s.all_files := by
  induction fs generalizing s with
  | nil => exact ⟨rfl, rfl, rfl⟩
  | cons f fs ih =>
    simp only [List.foldl_cons]
    obtain ⟨h1, h2, h3⟩ := validate_file_state s f
    obtain ⟨g1, g2, g3⟩ := ih (validate_file s f)
    exact ⟨by rw [g1, h1], by rw [g2, h2], by rw [g3, h3]⟩

theorem mem_insertSet {l : List Value} {v a : Value} :
    a ∈ insertSet l v ↔ a ∈ l ∨ a = v := by
  unfold insertSet
  split
  · next h =>
    constructor
    · exact Or.inl
    · rintro (ha | rfl)
      exacts [ha, h]
  · simp

/-- `f` is an action document that registers `v` as an action name in
phase 1: it parses to a mapping of type `action` whose `name` value is
the truthy `v` (this happens before, and independently of, every other
check on the document). -/
def declaresActionName (f : SrcFile) (v : Value) : Bool :=
  match f.parse with
  | .parsed (.vmap data) =>
    decide ((oget data "type").getD .vnull = .vstr "action") &&
      decide (oget data "name" = some v) && truthy v
  | _ => false

theorem mem_action_names_upd {an : List Value} {f : SrcFile} {v : Value} :
    v ∈ action_names_upd an f ↔ v ∈ an ∨ declaresActionName f v = true := by
  obtain ⟨p, pr⟩ := f
  rcases pr with e | e | val
  · simp [action_names_upd, declaresActionName]
  · simp [action_names_upd, declaresActionName]
  · rcases val with _ | b | n | st | l | data
    · simp [action_names_upd, declaresActionName]
    · simp [action_names_upd, declaresActionName]
    · simp [action_names_upd, declaresActionName]
    · simp [action_names_upd, declaresActionName]
    · simp [action_names_upd, declaresActionName]
    · simp only [action_names_upd, declaresActionName]
      by_cases h1 : truthy ((oget data "type").getD .vnull) = false
      · have hne : ¬((oget data "type").getD .vnull = .vstr "action") := by
          intro hcon
          rw [hcon] at h1
          exact absurd h1 (by decide)
        simp only [if_pos h1, Bool.and_eq_true, decide_eq_true_eq]
        constructor
        · exact Or.inl
        · rintro (ha | ⟨⟨hft, _⟩, _⟩)
          · exact ha
          · exact absurd hft hne
      · simp only [if_neg h1]
        by_cases h2 : (oget data "type").getD .vnull = .vstr "action"
        · rw [if_pos h2]
          simp only [Bool.and_eq_true, decide_eq_true_eq, h2, eq_self_iff_true, true_and]
          rcases hn : oget data "name" with _ | nv <;>
            simp only [hn, Option.getD_none, Option.getD_some]
          · have hvn : ¬(truthy Value.vnull = true) := by decide
            rw [if_neg hvn]
            simp
          · by_cases h3 : truthy nv = true
            · rw [if_pos h3, mem_insertSet]
              constructor
              · rintro (ha | rfl)
                · exact Or.inl ha
                · exact Or.inr ⟨rfl, h3⟩
              · rintro (ha | ⟨hsome, htr⟩)
                · exact Or.inl ha
                · obtain rfl := Option.some.inj hsome
                  exact Or.inr rfl
            · rw [if_neg h3]
              constructor
              · exact Or.inl
              · rintro (ha | ⟨hsome, htr⟩)
                · exact ha
                · obtain rfl := Option.some.inj hsome
                  exact absurd htr h3
        · simp only [if_neg h2, Bool.and_eq_true, decide_eq_true_eq]
          constructor
          · exact Or.inl
          · rintro (ha | ⟨⟨hft, _⟩, _⟩)
            · exact ha
            · exact absurd hft h2

theorem mem_phase1_action_names {fs : List SrcFile} {an : List Value} {v : Value} :
    v ∈ fs.foldl action_names_upd an ↔
      v ∈ an ∨ ∃ f ∈ fs, declaresActionName f v = true := by
  induction fs generalizing an with
  | nil => simp
  | cons f fs ih =>
    simp only [List.foldl_cons]
    rw [ih, mem_action_names_upd]
    constructor
    · rintro ((ha | hd) | ⟨g, hg, hd⟩)
      · exact Or.inl ha
      · exact Or.inr ⟨f, by simp, hd⟩
      · exact Or.inr ⟨g, by simp [hg], hd⟩
    · rintro (ha | ⟨g, hg, hd⟩)
      · exact Or.inl (Or.inl ha)
      · rcases List.mem_cons.1 hg with rfl | hg'
        · exact Or.inl (Or.inr hd)
        · exact Or.inr ⟨g, hg', hd⟩

/-- The file stores a document into `all_files` (parses to a mapping). -/
def storesDoc (f : SrcFile) : Bool :=
  match f.parse with
  | .parsed (.vmap _) => true
  | _ => false

theorem keys_dictSet (l : List (String × Omap)) (k : String) (v : Omap) :
    (dictSet l k v).map Prod.fst =
      if k ∈ l.map Prod.fst then l.map Prod.fst else l.map Prod.fst ++ [k] := by
  induction l with
  | nil => simp [dictSet]
  | cons a l ih =>
    obtain ⟨k0, v0⟩ := a
    simp only [dictSet]
    by_cases hk : k0 = k
    · subst hk
      have hmem : k0 ∈ ((k0, v0) :: l).map Prod.fst := by simp
      rw [if_pos rfl, if_pos hmem]
      simp
    · rw [if_neg hk]
      simp only [List.map_cons, ih]
      by_cases hm : k ∈ l.map Prod.fst
      · have hmem : k ∈ k0 :: l.map Prod.fst := by simp [hm]
        rw [if_pos hm, if_pos hmem]
      · have hnmem : ¬ k ∈ k0 :: l.map Prod.fst := by
          simp only [List.mem_cons]
          rintro (rfl | hc)
          · exact hk rfl
          · exact hm hc
        rw [if_neg hm, if_neg hnmem]
        simp

theorem mem_keys_all_files_upd {af : List (String × Omap)} {f : SrcFile} {q : String} :
    q ∈ (all_files_upd af f).map Prod.fst ↔
      q ∈ af.map Prod.fst ∨ (q = f.path ∧ storesDoc f = true) := by
  obtain ⟨p, pr⟩ := f
  rcases pr with e | e | val
  · simp [all_files_upd, storesDoc]
  · simp [all_files_upd, storesDoc]
  · rcases val with _ | b | n | st | l | data <;> simp only [all_files_upd, storesDoc]
    · simp
    · simp
    · simp
    · simp
    · simp
    · rw [keys_dictSet]
      split
      · next hin =>
        constructor
        · exact Or.inl
        · rintro (hq | ⟨rfl, _⟩)
          exacts [hq, hin]
      · simp only [List.mem_append, List.mem_singleton]
        constructor
        · rintro (hq | rfl)
          · exact Or.inl hq
          · exact Or.inr ⟨rfl, by trivial⟩
        · rintro (hq | ⟨rfl, _⟩)
          · exact Or.inl hq
          · exact Or.inr rfl

theorem mem_keys_phase1 {fs : List SrcFile} {af : List (String × Omap)} {q : String} :
    q ∈ (fs.foldl all_files_upd af).map Prod.fst ↔
      q ∈ af.map Prod.fst ∨ ∃ f ∈ fs, q = f.path ∧ storesDoc f = true := by
  induction fs generalizing af with
  | nil => simp
  | cons f fs ih =>
    simp only [List.foldl_cons]
    rw [ih, mem_keys_all_files_upd]
    constructor
    · rintro ((hq | hd) | ⟨g, hg, hd⟩)
      · exact Or.inl hq
      · exact Or.inr ⟨f, by simp, hd⟩
      · exact Or.inr ⟨g, by simp [hg], hd⟩
    · rintro (hq | ⟨g, hg, hd⟩)
      · exact Or.inl (Or.inl hq)
      · rcases List.mem_cons.1 hg with rfl | hg'
        · exact Or.inl (Or.inr hd)
        · exact Or.inr ⟨g, hg', hd⟩

theorem nodup_keys_all_files_upd {af : List (String × Omap)} {f : SrcFile}
    (h : (af.map Prod.fst).Nodup) : ((all_files_upd af f).map Prod.fst).Nodup := by
  obtain ⟨p, pr⟩ := f
  rcases pr with e | e | val
  · exact h
  · exact h
  · rcases val with _ | b | n | st | l | data <;> (try exact h)
    simp only [all_files_upd]
    rw [keys_dictSet]
    split
    · exact h
    · next hnin =>
      refine List.Nodup.append h (by simp) ?_
      intro q hq hq2
      simp only [List.mem_singleton] at hq2
      subst hq2
      exact hnin hq

theorem nodup_keys_phase1 {fs : List SrcFile} {af : List (String × Omap)}
    (h : (af.map Prod.fst).Nodup) :
    ((fs.foldl all_files_upd af).map Prod.fst).Nodup := by
  induction fs generalizing af with
  | nil => exact h
  | cons f fs ih => exact ih (nodup_keys_all_files_upd h)

theorem split_at_key {l : List (String × Omap)} {p : String} {d : Omap}
    (hmem : (p, d) ∈ l) (hnd : (l.map Prod.fst).Nodup) :
    ∃ l1 l2, l = l1 ++ (p, d) :: l2 ∧ p ∉ l1.map Prod.fst ∧ p ∉ l2.map Prod.fst := by
  obtain ⟨l1, l2, rfl⟩ := List.append_of_mem hmem
  refine ⟨l1, l2, rfl, ?_, ?_⟩
  · intro hp
    rw [List.map_append, List.map_cons] at hnd
    exact (List.disjoint_of_nodup_append hnd) hp (by simp)
  · intro hp
    rw [List.map_append, List.map_cons] at hnd
    exact ((hnd.of_append_right).not_mem (by simpa using hp) : _)

theorem cross_fold_countPT_ne {l : List (String × Omap)} {s : St} {p ty : String}
    (hne : ∀ q ∈ l.map Prod.fst, q ≠ p) :
    countPT (l.foldl cross_file_step s).errors p ty = countPT s.errors p ty :=
  countPT_eq_of_DX (DX_cross_fold l s) (fun e hpe hc => (hne e.file_path hpe.1) hc.1)

theorem cross_step_automation_count (s : St) (p : String) (data am : Omap) (rv : Value)
    (hty : oget data "type" = some (.vstr "automation"))
    (hact : oget data "action" = some (.vmap am))
    (href : oget am "ref" = some rv) (htruthy : truthy rv = true) :
    countPT (cross_file_step s (p, data)).errors p "missing_action_reference" =
      countPT s.errors p "missing_action_reference" +
        (if rv ∈ s.sym.action_names then 0 else 1) := by
  simp only [cross_file_step, hty, Option.getD_some]
  rw [if_pos trivial]
  simp only [validate_automation_references, hact, Option.getD_some, href]
  by_cases hin : rv ∈ s.sym.action_names
  · have hcond : ¬(truthy rv = true ∧ rv ∉ s.sym.action_names) := fun h => h.2 hin
    rw [if_neg hcond, if_pos hin, Nat.add_zero]
  · rw [if_pos ⟨htruthy, hin⟩, if_neg hin, countPT_addErr_self]

theorem phase1_countPT_zero {fs : List SrcFile} {p ty : String}
    (hty : ty ∉ fileErrTys) :
    countPT (fs.foldl validate_file initSt).errors p ty = 0 := by
  have h := @countPT_eq_of_DX _ _ _ _ (DX_phase1_fold fs initSt)
    p ty (fun e hpe hc => hty (hc.2 ▸ hpe.2.2))
  rw [h]
  rfl

/-- C3 amended — for every full validation run and every automation
document whose `action` mapping carries a truthy `ref` value: if some
action document in the project declares a `name` equal to that ref
(action names being registered in phase 1 even when other checks on the
declaring action document fail), zero `missing_action_reference`
diagnostics are produced for that automation; if no such action exists,
exactly one `missing_action_reference` error is produced for it.  (The
source guards the lookup with Python truthiness, so a falsy ref — empty
string or null — is never checked; see the counterexample.) -/
theorem C3_automation_ref_resolution (fs : List SrcFile) (p : String) (data am : Omap)
    (rv : Value)
    (hmem : (p, data) ∈ (validate_all (.files fs) false false).2.all_files)
    (hty : oget data "type" = some (.vstr "automation"))
    (hact : oget data "action" = some (.vmap am))
    (href : oget am "ref" = some rv)
    (htruthy : truthy rv = true) :
    ((∃ f ∈ fs, declaresActionName f rv = true) →
      countPT (validate_all (.files fs) false false).2.errors p
        "missing_action_reference" = 0) ∧
    ((∀ f ∈ fs, declaresActionName f rv = false) →
      countPT (validate_all (.files fs) false false).2.errors p
        "missing_action_reference" = 1) := by
  have hrun : (validate_all (.files fs) false false).2 =
      validate_cross_file_references (fs.foldl validate_file initSt) := by
    simp [validate_all, validate_syntax_phase]
  set s1 := fs.foldl validate_file initSt with hs1
  have haf : (validate_all (.files fs) false false).2.all_files = s1.all_files := by
    rw [hrun]
    exact (SymAF_cross s1).2
  rw [haf] at hmem
  have hnodup : (s1.all_files.map Prod.fst).Nodup := by
    rw [hs1, (phase1_state fs initSt).2.2]
    exact nodup_keys_phase1 (by simp [initSt])
  obtain ⟨l1, l2, hsplit, hp1, hp2⟩ := split_at_key hmem hnodup
  have hzero : countPT s1.errors p "missing_action_reference" = 0 :=
    phase1_countPT_zero (by decide)
  have hcount : countPT (validate_cross_file_references s1).errors p
      "missing_action_reference" =
      (if rv ∈ s1.sym.action_names then 0 else 1) := by
    unfold validate_cross_file_references
    rw [hsplit, List.foldl_append, List.foldl_cons]
    have hsym1 : (l1.foldl cross_file_step s1).sym = s1.sym :=
      (SymAF_foldl cross_file_step (fun t x => (DXC_cross_file_step t x).2) l1 s1).1
    have hc1 : countPT (l1.foldl cross_file_step s1).errors p "missing_action_reference" =
        countPT s1.errors p "missing_action_reference" :=
      cross_fold_countPT_ne (fun q hq => by rintro rfl; exact hp1 hq)
    have hc2 := cross_step_automation_count (l1.foldl cross_file_step s1) p data am rv
      hty hact href htruthy
    rw [hsym1, hc1, hzero, Nat.zero_add] at hc2
    have hc3 : countPT
        (l2.foldl cross_file_step (cross_file_step (l1.foldl cross_file_step s1) (p, data))).errors
        p "missing_action_reference" =
        countPT (cross_file_step (l1.foldl cross_file_step s1) (p, data)).errors p
          "missing_action_reference" :=
      cross_fold_countPT_ne (fun q hq => by rintro rfl; exact hp2 hq)
    rw [hc3, hc2]
  have hmemnames : rv ∈ s1.sym.action_names ↔ ∃ f ∈ fs, declaresActionName f rv = true := by
    rw [hs1, (phase1_state fs initSt).1, mem_phase1_action_names]
    simp [initSt]
  rw [hrun]
  constructor
  · intro hexists
    rw [hcount, if_pos (hmemnames.2 hexists)]
  · intro hnone
    rw [hcount, if_neg ?_]
    rw [hmemnames]
    rintro ⟨f, hf, hd⟩
    rw [hnone f hf] at hd
    cases hd

/-- A complete action document declaring the name `send`. -/
def c3ActionDoc : Omap :=
  [("type", .vstr "action"), ("name", .vstr "send"), ("description", .vstr "d"),
   ("implementation", .vstr "python")]

/-- A complete automation document whose `action.ref` is `send`. -/
def c3AutoDoc : Omap :=
  [("type", .vstr "automation"), ("name", .vstr "a"), ("description", .vstr "d"),
   ("trigger", .vmap [("type", .vstr "manual")]), ("action", .vmap [("ref", .vstr "send")])]

def c3Files : List SrcFile :=
  [⟨"action.ps", .parsed (.vmap c3ActionDoc)⟩, ⟨"auto.ps", .parsed (.vmap c3AutoDoc)⟩]

/-- C3 witness — on a concrete two-document project whose automation
references the declared action `send`, the amended theorem yields zero
`missing_action_reference` diagnostics. -/
theorem C3_witness :
    countPT (validate_all (.files c3Files) false false).2.errors "auto.ps"
      "missing_action_reference" = 0 :=
  (C3_automation_ref_resolution c3Files "auto.ps" c3AutoDoc [("ref", .vstr "send")]
      (.vstr "send") (by decide) (by decide) (by decide) (by decide) (by decide)).1
    ⟨⟨"action.ps", .parsed (.vmap c3ActionDoc)⟩, by decide, by decide⟩

/-- A complete automation document whose `action.ref` is the empty
string (present, but falsy). -/
def c3AutoEmptyRef : Omap :=
  [("type", .vstr "automation"), ("name", .vstr "a"), ("description", .vstr "d"),
   ("trigger", .vmap [("type", .vstr "manual")]), ("action", .vmap [("ref", .vstr "")])]

/-- C3 counterexample — an automation whose `action` mapping carries the
`ref` value `""`: no action in the project declares that name (an empty
name can never register), so the claim as stated demands exactly one
`missing_action_reference` error, but the run produces zero because the
source skips falsy refs. -/
theorem C3_counterexample_empty_ref :
    oget c3AutoEmptyRef "action" = some (.vmap [("ref", .vstr "")]) ∧
    (∀ f ∈ [(⟨"auto.ps", .parsed (.vmap c3AutoEmptyRef)⟩ : SrcFile)],
      declaresActionName f (.vstr "") = false) ∧
    countPT (validate_all (.files [⟨"auto.ps", .parsed (.vmap c3AutoEmptyRef)⟩]) false
        false).2.errors "auto.ps" "missing_action_reference" = 0 := by
  decide

/-- A complete automation document whose `action.ref` names no action. -/
def c1AutoDoc : Omap :=
  [("type", .vstr "automation"), ("name", .vstr "a"), ("description", .vstr "d"),
   ("trigger", .vmap [("type", .vstr "manual")]), ("action", .vmap [("ref", .vstr "ghost")])]

def c1Files : List SrcFile := [⟨"auto.ps", .parsed (.vmap c1AutoDoc)⟩]

/-- C1 — in cross-file-only mode the orchestrator skips the syntax stage
entirely (`if not cross_file_only`), so the Symbol Table and the project
document set stay empty, the cross-reference resolver visits no
documents, and the run reports nothing and succeeds; the very same
project under a full run reports the unresolved action reference.  This
contradicts the documented contract of the mode (run the syntax stage
silently, then surface resolution diagnostics). -/
theorem C1_cross_file_only_reports_nothing :
    (validate_all (.files c1Files) false true).2.all_files = [] ∧
    (validate_all (.files c1Files) false true).2.sym.action_names = [] ∧
    (validate_all (.files c1Files) false true).2.errors = [] ∧
    (validate_all (.files c1Files) false true).2.warnings = [] ∧
    (validate_all (.files c1Files) false true).1 = true ∧
    countPT (validate_all (.files c1Files) false false).2.errors "auto.ps"
      "missing_action_reference" = 1 := by
  decide

theorem lookupSF_sfSet_self (sf : List (Value × List Value)) (k : Value) (v : List Value) :
    lookupSF (sfSet sf k v) k = some v := by
  induction sf with
  | nil => simp [sfSet, lookupSF]
  | cons a sf ih =>
    obtain ⟨k0, v0⟩ := a
    simp only [sfSet]
    by_cases hk : k0 = k
    · rw [if_pos hk]
      simp [lookupSF]
    · rw [if_neg hk]
      simp only [lookupSF, if_neg hk]
      exact ih

theorem lookupSF_sfSet_ne (sf : List (Value × List Value)) {k k' : Value} (v : List Value)
    (h : k ≠ k') : lookupSF (sfSet sf k v) k' = lookupSF sf k' := by
  induction sf with
  | nil => simp [sfSet, lookupSF, h]
  | cons a sf ih =>
    obtain ⟨k0, v0⟩ := a
    simp only [sfSet]
    by_cases hk : k0 = k
    · rw [if_pos hk]
      subst hk
      simp [lookupSF, h]
    · rw [if_neg hk]
      simp only [lookupSF]
      split
      · rfl
      · exact ih

theorem lookupSF_sfAdd_self (sf : List (Value × List Value)) {k : Value} {cur : List Value}
    (f : Value) (h : lookupSF sf k = some cur) :
    lookupSF (sfAdd sf k f) k = some (insertSet cur f) := by
  induction sf with
  | nil => simp [lookupSF] at h
  | cons a sf ih =>
    obtain ⟨k0, v0⟩ := a
    simp only [sfAdd]
    by_cases hk : k0 = k
    · rw [if_pos hk]
      simp only [lookupSF, if_pos hk] at h ⊢
      rw [Option.some.inj h]
    · rw [if_neg hk]
      simp only [lookupSF, if_neg hk] at h ⊢
      exact ih h

theorem lookupSF_sfAdd_ne (sf : List (Value × List Value)) {k k' : Value} (f : Value)
    (h : k ≠ k') : lookupSF (sfAdd sf k f) k' = lookupSF sf k' := by
  induction sf with
  | nil => simp [sfAdd, lookupSF, h]
  | cons a sf ih =>
    obtain ⟨k0, v0⟩ := a
    simp only [sfAdd]
    by_cases hk : k0 = k
    · rw [if_pos hk]
      subst hk
      simp [lookupSF, h]
    · rw [if_neg hk]
      simp only [lookupSF]
      split
      · rfl
      · exact ih

/-- The truthy field names of a schema document's `fields` entries, in
order of appearance (entries that are not mappings or have no usable
`name` contribute nothing, exactly as in the validator's loop). -/
def fieldNamesOf (fl : List Value) : List Value :=
  fl.filterMap (fun v =>
    match v with
    | .vmap fm =>
      if truthy ((oget fm "name").getD .vnull) then some ((oget fm "name").getD .vnull)
      else none
    | _ => none)

/-- The field set a schema document registers: its truthy field names,
first occurrence kept (idempotent insertion). -/
def schemaFieldNames (fl : List Value) : List Value :=
  (fieldNamesOf fl).foldl insertSet []

theorem mem_foldl_insertSet {l init : List Value} {v : Value} :
    v ∈ l.foldl insertSet init ↔ v ∈ init ∨ v ∈ l := by
  induction l generalizing init with
  | nil => simp
  | cons x xs ih =>
    simp only [List.foldl_cons]
    rw [ih, mem_insertSet]
    constructor
    · rintro ((ha | rfl) | hx)
      · exact Or.inl ha
      · exact Or.inr (by simp)
      · exact Or.inr (by simp [hx])
    · rintro (ha | hx)
      · exact Or.inl (Or.inl ha)
      · rcases List.mem_cons.1 hx with rfl | hx'
        · exact Or.inl (Or.inr rfl)
        · exact Or.inr hx'

theorem nodup_insertSet {l : List Value} {v : Value} (h : l.Nodup) : (insertSet l v).Nodup := by
  unfold insertSet
  split
  · exact h
  · next hn =>
    refine List.Nodup.append h (by simp) ?_
    intro a ha ha2
    simp only [List.mem_singleton] at ha2
    subst ha2
    exact hn ha

theorem nodup_foldl_insertSet {l init : List Value} (h : init.Nodup) :
    (l.foldl insertSet init).Nodup := by
  induction l generalizing init with
  | nil => exact h
  | cons x xs ih => exact ih (nodup_insertSet h)

theorem schema_loop_lookup {oname : Value} (ho : truthy oname = true) :
    ∀ (fl : List Value) (sf : List (Value × List Value)) (cur : List Value),
      lookupSF sf oname = some cur →
      lookupSF (fl.foldl (symUpdSchemaFieldStep oname) sf) oname =
        some ((fieldNamesOf fl).foldl insertSet cur) := by
  intro fl
  induction fl with
  | nil => exact fun sf cur h => h
  | cons fld fl ih =>
    intro sf cur h
    simp only [List.foldl_cons]
    rcases fld with _ | b | n | st | l | fm <;>
      simp only [symUpdSchemaFieldStep, fieldNamesOf, List.filterMap_cons] <;>
      (try exact ih sf cur h)
    by_cases hname : truthy ((oget fm "name").getD .vnull) = true
    · have hnf : ¬(truthy ((oget fm "name").getD .vnull) = false) := by simp [hname]
      rw [if_neg hnf, if_pos ho, if_pos hname]
      dsimp only
      rw [List.foldl_cons]
      exact ih _ _ (lookupSF_sfAdd_self sf _ h)
    · have hnf : truthy ((oget fm "name").getD .vnull) = false := by simpa using hname
      rw [if_pos hnf, if_neg hname]
      dsimp only
      exact ih sf cur h

/-- C9 — validating a schema document whose `object` value names an
already-registered object replaces that object's field set in the Symbol
Table with a fresh set containing exactly the later document's truthy
field names (each once); any field name registered only by the earlier
document is therefore absent afterwards. -/
theorem C9_schema_redeclaration_replaces (s : St) (p : String) (data : Omap) (ov : Value)
    (fl : List Value)
    (hov : oget data "object" = some ov) (htruthy : truthy ov = true)
    (hfl : oget data "fields" = some (.vlist fl)) :
    lookupSF (validate_schema s p data).sym.schema_fields ov = some (schemaFieldNames fl) ∧
    (∀ v : Value, v ∈ schemaFieldNames fl ↔ v ∈ fieldNamesOf fl) ∧
    (schemaFieldNames fl).Nodup := by
  refine ⟨?_, fun v => by simp [schemaFieldNames, mem_foldl_insertSet],
    nodup_foldl_insertSet (by simp)⟩
  rw [(validate_schema_state s p data).2.1]
  simp only [hov, hfl, Option.getD_some]
  rw [if_pos htruthy]
  exact schema_loop_lookup htruthy fl _ [] (lookupSF_sfSet_self _ _ _)

/-- The prior state of the C9 witness: object `o` already registered
with field `a` by an earlier schema document. -/
def c9Prior : St :=
  ⟨[], [], ⟨[.vstr "o"], [(.vstr "o", [.vstr "a"])], [], []⟩, []⟩

/-- The later schema document of the C9 witness, redeclaring `o` with
the single field `b`. -/
def c9Later : Omap :=
  [("type", .vstr "schema"), ("object", .vstr "o"), ("description", .vstr "d"),
   ("fields", .vlist [.vmap [("name", .vstr "b")]])]

/-- C9 witness — after the redeclaring document is validated, `o`
maps to exactly `[b]`; the earlier-only field `a` is gone. -/
theorem C9_witness :
    lookupSF (validate_schema c9Prior "s2.ps" c9Later).sym.schema_fields (.vstr "o") =
      some [.vstr "b"] :=
  (C9_schema_redeclaration_replaces c9Prior "s2.ps" c9Later (.vstr "o")
    [.vmap [("name", .vstr "b")]] (by decide) (by decide) (by decide)).1

/-- C10 — a form field entry whose `maps_to` value contains no dot is
never checked against any schema and produces no diagnostic, whatever
the state (in particular even when the form's `target_object` is a known
schema whose field set does not contain that value). -/
theorem C10_bare_maps_to_unchecked (s : St) (p : String) (fm : Omap) (m : String)
    (hmaps : oget fm "maps_to" = some (.vstr m))
    (hbare : splitDot m = none) :
    form_ref_field_step p s (.vmap fm) = s := by
  simp only [form_ref_field_step, hmaps, hbare]

/-- The state of the C10 witness: `contact` is a known schema object
whose registered field set does not contain `phone`. -/
def c10St : St :=
  ⟨[], [], ⟨[.vstr "contact"], [(.vstr "contact", [.vstr "email"])], [], []⟩, []⟩

/-- C10 witness — the bare mapping `phone` on a form targeting the known
schema `contact` (which lacks a `phone` field) produces nothing. -/
theorem C10_witness :
    form_ref_field_step "f.ps" c10St (.vmap [("maps_to", .vstr "phone")]) = c10St :=
  C10_bare_maps_to_unchecked c10St "f.ps" [("maps_to", .vstr "phone")] "phone"
    (by decide) (by decide)

/-- C6 — phase-2 resolution of a qualified field reference
`object.field`, both from a layout component (`_validate_field_reference`)
and from a form field's `maps_to`: when `object` has a registered field
set that does not contain `field`, exactly one `missing_field_reference`
error is appended; when `object` is not a registered schema, the state is
returned unchanged — no diagnostic of any kind. -/
theorem C6_qualified_field_reference (s : St) (p : String) (oname : Value)
    (r obj fld : String) (hsplit : splitDot r = some (obj, fld)) :
    (∀ fset, lookupSF s.sym.schema_fields (.vstr obj) = some fset → .vstr fld ∉ fset →
      validate_field_reference s p oname r =
        addErr s p "missing_field_reference" ("Field not found: " ++ obj ++ "." ++ fld)) ∧
    (lookupSF s.sym.schema_fields (.vstr obj) = none →
      validate_field_reference s p oname r = s) ∧
    (∀ fm : Omap, oget fm "maps_to" = some (.vstr r) →
      (∀ fset, lookupSF s.sym.schema_fields (.vstr obj) = some fset → .vstr fld ∉ fset →
        form_ref_field_step p s (.vmap fm) =
          addErr s p "missing_field_reference" ("Field not found: " ++ r)) ∧
      (lookupSF s.sym.schema_fields (.vstr obj) = none →
        form_ref_field_step p s (.vmap fm) = s)) := by
  refine ⟨?_, ?_, ?_⟩
  · intro fset hlk hnot
    simp only [validate_field_reference, hsplit, hlk]
    rw [if_neg hnot]
  · intro hlk
    simp only [validate_field_reference, hsplit, hlk]
  · intro fm hmaps
    constructor
    · intro fset hlk hnot
      simp only [form_ref_field_step, hmaps, hsplit, hlk]
      rw [if_neg hnot]
    · intro hlk
      simp only [form_ref_field_step, hmaps, hsplit, hlk]

/-- C6 witness — with `contact` registered as `[email]`, the qualified
reference `contact.phone` errors and `ghost.phone` is silently accepted,
through both the layout path and the form path. -/
theorem C6_witness :
    (validate_field_reference c10St "l.ps" (.vstr "contact") "contact.phone" =
      addErr c10St "l.ps" "missing_field_reference" "Field not found: contact.phone") ∧
    (validate_field_reference c10St "l.ps" (.vstr "contact") "ghost.phone" = c10St) ∧
    (form_ref_field_step "f.ps" c10St (.vmap [("maps_to", .vstr "contact.phone")]) =
      addErr c10St "f.ps" "missing_field_reference" "Field not found: contact.phone") ∧
    (form_ref_field_step "f.ps" c10St (.vmap [("maps_to", .vstr "ghost.phone")]) = c10St) :=
  ⟨(C6_qualified_field_reference c10St "l.ps" (.vstr "contact") "contact.phone" "contact"
      "phone" (by decide)).1 [.vstr "email"] (by decide) (by decide),
   (C6_qualified_field_reference c10St "l.ps" (.vstr "contact") "ghost.phone" "ghost"
      "phone" (by decide)).2.1 (by decide),
   ((C6_qualified_field_reference c10St "f.ps" (.vstr "contact") "contact.phone" "contact"
      "phone" (by decide)).2.2 [("maps_to", .vstr "contact.phone")] (by decide)).1
     [.vstr "email"] (by decide) (by decide),
   ((C6_qualified_field_reference c10St "f.ps" (.vstr "contact") "ghost.phone" "ghost"
      "phone" (by decide)).2.2 [("maps_to", .vstr "ghost.phone")] (by decide)).2 (by decide)⟩

/-- A parsed mapping whose `type` key is present but empty. -/
def c7Doc : Omap := [("type", .vstr ""), ("name", .vstr "x")]

/-- C7 counterexample — a successfully parsed mapping that does have a
`type` key (value `""`) still gets a `missing_type` diagnostic, because
the loader tests Python truthiness (`if not file_type`), not key
presence; so "missing_type iff the mapping lacks a `type` key" fails. -/
theorem C7_counterexample_empty_type :
    (oget c7Doc "type").isSome = true ∧
    countPT (validate_file initSt ⟨"e.ps", .parsed (.vmap c7Doc)⟩).errors "e.ps"
      "missing_type" = 1 := by
  decide

/-- C7 amended — for every successfully parsed top-level mapping, the
loader emits exactly one `missing_type` diagnostic iff the `type` value
is absent or falsy (null, empty string, 0, false, empty collection);
the document is stored in the project document set (and hence counted
among the files seen) in every case, and when `missing_type` fires the
document undergoes no further typed validation: the only state change
beyond storing it is that single error. -/
theorem C7_missing_type_iff_falsy_type (s : St) (p : String) (data : Omap) :
    (validate_file s ⟨p, .parsed (.vmap data)⟩).all_files = dictSet s.all_files p data ∧
    countPT (validate_file s ⟨p, .parsed (.vmap data)⟩).errors p "missing_type" =
      countPT s.errors p "missing_type" +
        (if truthy ((oget data "type").getD .vnull) = true then 0 else 1) ∧
    (truthy ((oget data "type").getD .vnull) = false →
      validate_file s ⟨p, .parsed (.vmap data)⟩ =
        { s with all_files := dictSet s.all_files p data,
                 errors := s.errors ++
                   [⟨p, "missing_type", "Missing required type field", "error"⟩] }) := by
  refine ⟨(validate_file_state s _).2.2, ?_, ?_⟩
  · simp only [validate_file]
    by_cases htv : truthy ((oget data "type").getD .vnull) = false
    · rw [if_pos htv]
      have hne : ¬(truthy ((oget data "type").getD .vnull) = true) := by simp [htv]
      rw [if_neg hne, countPT_addErr_self]
    · rw [if_neg htv]
      have htrue : truthy ((oget data "type").getD .vnull) = true := by
        revert htv
        cases truthy ((oget data "type").getD .vnull) <;> simp
      rw [if_pos htrue, Nat.add_zero]
      split_ifs with h2 h3 h4 h5 h6 h7
      · exact countPT_eq_of_PE_DX (DX_validate_action _ p data) (by decide)
      · exact countPT_eq_of_PE_DX (DX_validate_schema _ p data) (by decide)
      · exact countPT_eq_of_PE_DX (DX_validate_layout _ p data) (by decide)
      · exact countPT_eq_of_PE_DX (DX_validate_automation _ p data) (by decide)
      · exact countPT_eq_of_PE_DX (DX_validate_integration _ p data) (by decide)
      · exact countPT_eq_of_PE_DX (DX_validate_form _ p data) (by decide)
      · rfl
  · intro htv
    simp only [validate_file, if_pos htv]
    rfl

/-- C7 witness — a mapping with no `type` key at all: exactly one
`missing_type` error, the document still stored. -/
theorem C7_witness :
    validate_file initSt ⟨"e.ps", .parsed (.vmap [("name", .vstr "x")])⟩ =
      { initSt with
          all_files := dictSet initSt.all_files "e.ps" [("name", .vstr "x")],
          errors := initSt.errors ++
            [⟨"e.ps", "missing_type", "Missing required type field", "error"⟩] } :=
  (C7_missing_type_iff_falsy_type initSt "e.ps" [("name", .vstr "x")]).2.2 (by decide)

theorem filter_path_nil {d : List ValidationError} {p : String}
    (h : ∀ e ∈ d, e.file_path ≠ p) :
    d.filter (fun e => e.file_path = p) = [] := by
  refine List.filter_eq_nil_iff.2 ?_
  intro a ha
  simpa using h a ha

/-- C5 — a file whose raw text fails the parser: the loader records
exactly one diagnostic for it (category `yaml_syntax`, severity error,
carrying the parser's message), mutates nothing else (no Symbol Table
names, not added to the project document set), the file undergoes no
cross-file checks (it is absent from the document-set keys phase 2
iterates), and the run continues with the remaining files. -/
theorem C5_parse_error_isolation (t1 t2 : List SrcFile) (f : SrcFile) (m : String)
    (hf : f.parse = .parseError m)
    (hp : f.path ∉ (t1 ++ t2).map SrcFile.path) :
    (∀ s : St, validate_file s f =
      addErr s f.path "yaml_syntax" ("YAML syntax error: " ++ m)) ∧
    ((validate_all (.files (t1 ++ f :: t2)) false false).2.errors.filter
        (fun e => e.file_path = f.path)) =
      [⟨f.path, "yaml_syntax", "YAML syntax error: " ++ m, "error"⟩] ∧
    ((validate_all (.files (t1 ++ f :: t2)) false false).2.warnings.filter
        (fun e => e.file_path = f.path)) = [] ∧
    f.path ∉ (validate_all (.files (t1 ++ f :: t2)) false false).2.all_files.map Prod.fst := by
  have hpt1 : ∀ q ∈ t1.map SrcFile.path, q ≠ f.path := by
    intro q hq hqe
    subst hqe
    exact hp (by simp only [List.map_append, List.mem_append]; exact Or.inl hq)
  have hpt2 : ∀ q ∈ t2.map SrcFile.path, q ≠ f.path := by
    intro q hq hqe
    subst hqe
    exact hp (by simp only [List.map_append, List.mem_append]; exact Or.inr hq)
  have h1 : ∀ s : St, validate_file s f =
      addErr s f.path "yaml_syntax" ("YAML syntax error: " ++ m) := by
    intro s
    simp only [validate_file, hf]
  set sA := t1.foldl validate_file initSt with hsA
  set sC := t2.foldl validate_file (validate_file sA f) with hsC
  have hsplit : (t1 ++ f :: t2).foldl validate_file initSt = sC := by
    rw [List.foldl_append, List.foldl_cons]
  have hrun : (validate_all (.files (t1 ++ f :: t2)) false false).2 =
      sC.all_files.foldl cross_file_step sC := by
    have h0 : (validate_all (.files (t1 ++ f :: t2)) false false).2 =
        validate_cross_file_references ((t1 ++ f :: t2).foldl validate_file initSt) := rfl
    rw [h0, hsplit]
    rfl
  have hkeys : f.path ∉ sC.all_files.map Prod.fst := by
    rw [← hsplit, (phase1_state (t1 ++ f :: t2) initSt).2.2]
    intro hmem
    rw [mem_keys_phase1] at hmem
    rcases hmem with h0 | ⟨g, hg, hqe, hst⟩
    · simp [initSt] at h0
    · rcases List.mem_append.1 hg with hg1 | hg2
      · exact hpt1 g.path (List.mem_map_of_mem _ hg1) hqe.symm
      · rcases List.mem_cons.1 hg2 with rfl | hg3
        · rw [storesDoc, hf] at hst
          cases hst
        · exact hpt2 g.path (List.mem_map_of_mem _ hg3) hqe.symm
  obtain ⟨⟨dA, heA, hpA⟩, ⟨wA, hwA, hqA⟩⟩ := DX_phase1_fold t1 initSt
  obtain ⟨⟨dC, heC, hpC⟩, ⟨wC, hwC, hqC⟩⟩ := DX_phase1_fold t2 (validate_file sA f)
  obtain ⟨⟨dD, heD, hpD⟩, ⟨wD, hwD, hqD⟩⟩ := DX_cross_fold sC.all_files sC
  rw [← hsA] at heA hwA
  rw [← hsC] at heC hwC
  have herrs : (sC.all_files.foldl cross_file_step sC).errors =
      dA ++ ([⟨f.path, "yaml_syntax", "YAML syntax error: " ++ m, "error"⟩] ++ (dC ++ dD)) := by
    rw [heD, heC, h1 sA]
    simp only [addErr]
    rw [heA]
    simp [initSt]
  have hwarns : (sC.all_files.foldl cross_file_step sC).warnings = wA ++ (wC ++ wD) := by
    rw [hwD, hwC, h1 sA]
    simp only [addErr]
    rw [hwA]
    simp [initSt]
  refine ⟨h1, ?_, ?_, ?_⟩
  · rw [hrun, herrs]
    rw [List.filter_append, List.filter_append, List.filter_append]
    rw [filter_path_nil (fun e he => hpt1 e.file_path (hpA e he).1)]
    rw [filter_path_nil (fun e he => hpt2 e.file_path (hpC e he).1)]
    have hD : ∀ e ∈ dD, e.file_path ≠ f.path := fun e he hc =>
      hkeys (by rw [← hc]; exact (hpD e he).1)
    rw [filter_path_nil hD]
    simp
  · rw [hrun, hwarns]
    rw [List.filter_append, List.filter_append]
    rw [filter_path_nil (fun e he => hqA e he |>.1 |> hpt1 e.file_path)]
    rw [filter_path_nil (fun e he => hqC e he |>.1 |> hpt2 e.file_path)]
    have hD : ∀ e ∈ wD, e.file_path ≠ f.path := fun e he hc =>
      hkeys (by rw [← hc]; exact (hqD e he).1)
    rw [filter_path_nil hD]
    rfl
  · rw [hrun]
    have haff : (sC.all_files.foldl cross_file_step sC).all_files = sC.all_files :=
      (SymAF_foldl cross_file_step (fun t x => (DXC_cross_file_step t x).2) sC.all_files sC).2
    rw [haff]
    exact hkeys

/-- C5 witness — a concrete two-file project where `bad.ps` fails the
parser: its only diagnostic is the single `yaml_syntax` error. -/
theorem C5_witness :
    ((validate_all (.files [⟨"a.ps", .parsed (.vmap c3ActionDoc)⟩,
        ⟨"bad.ps", .parseError "boom"⟩]) false false).2.errors.filter
      (fun e => e.file_path = "bad.ps")) =
      [⟨"bad.ps", "yaml_syntax", "YAML syntax error: boom", "error"⟩] :=
  (C5_parse_error_isolation [⟨"a.ps", .parsed (.vmap c3ActionDoc)⟩] []
    ⟨"bad.ps", .parseError "boom"⟩ "boom" (by decide) (by decide)).2.1

/-- `f` is a schema document that (re)initialises the field set of the
truthy object name `ov` in phase 1. -/
def declaresSchemaObject (f : SrcFile) (ov : Value) : Bool :=
  match f.parse with
  | .parsed (.vmap data) =>
    decide ((oget data "type").getD .vnull = .vstr "schema") &&
      decide ((oget data "object").getD .vnull = ov) && truthy ov
  | _ => false

theorem insertSet_of_mem {l : List Value} {v : Value} (h : v ∈ l) : insertSet l v = l := by
  unfold insertSet
  rw [if_pos h]

theorem length_insertSet_of_not_mem {l : List Value} {v : Value} (h : v ∉ l) :
    (insertSet l v).length = l.length + 1 := by
  unfold insertSet
  rw [if_neg h]
  simp

theorem schema_loop_lookup_ne {oname ov : Value}
    (hne : ¬(oname = ov ∧ truthy oname = true)) :
    ∀ (fl : List Value) (sf : List (Value × List Value)),
      lookupSF (fl.foldl (symUpdSchemaFieldStep oname) sf) ov = lookupSF sf ov := by
  intro fl
  induction fl with
  | nil => exact fun sf => rfl
  | cons fld fl ih =>
    intro sf
    simp only [List.foldl_cons]
    rcases fld with _ | b | n | st | l | fm <;> simp only [symUpdSchemaFieldStep] <;>
      (try exact ih sf)
    by_cases hname : truthy ((oget fm "name").getD .vnull) = false
    · rw [if_pos hname]
      exact ih sf
    · rw [if_neg hname]
      by_cases ho : truthy oname = true
      · rw [if_pos ho]
        rw [ih, lookupSF_sfAdd_ne]
        intro hcon
        exact hne ⟨hcon, ho⟩
      · rw [if_neg ho]
        exact ih sf

theorem lookup_schema_fields_upd_ne {sf : List (Value × List Value)} {f : SrcFile} {ov : Value}
    (hnd : declaresSchemaObject f ov = false) (hov : truthy ov = true) :
    lookupSF (schema_fields_upd sf f) ov = lookupSF sf ov := by
  obtain ⟨p, pr⟩ := f
  rcases pr with e | e | val
  · rfl
  · rfl
  · rcases val with _ | b | n | st | l | data <;> (try rfl)
    simp only [schema_fields_upd]
    simp only [declaresSchemaObject, Bool.and_eq_true, Bool.and_eq_false_iff,
      decide_eq_false_iff_not] at hnd
    by_cases h1 : truthy ((oget data "type").getD .vnull) = false
    · rw [if_pos h1]
    · rw [if_neg h1]
      by_cases h2 : (oget data "type").getD .vnull = .vstr "schema"
      · rw [if_pos h2]
        have hone : ¬((oget data "object").getD .vnull = ov) := by
          rcases hnd with (hA | hB) | hC
          · exact absurd h2 hA
          · exact hB
          · rw [hov] at hC
            cases hC
        have hsf1 : lookupSF (if truthy ((oget data "object").getD .vnull) = true then
            sfSet sf ((oget data "object").getD .vnull) [] else sf) ov = lookupSF sf ov := by
          split
          · exact lookupSF_sfSet_ne sf [] hone
          · rfl
        rcases hfv : (oget data "fields").getD (.vlist []) with _ | b | n | st | fl | mm <;>
          (try dsimp only) <;> (try exact hsf1)
        rw [schema_loop_lookup_ne (fun hc => hone hc.1)]
        exact hsf1
      · rw [if_neg h2]

theorem t2_lookup_preserved {l : List SrcFile} {ov : Value}
    (hl : ∀ g ∈ l, declaresSchemaObject g ov = false) (hov : truthy ov = true) :
    ∀ sf, lookupSF (l.foldl schema_fields_upd sf) ov = lookupSF sf ov := by
  induction l with
  | nil => exact fun sf => rfl
  | cons g l ih =>
    intro sf
    simp only [List.foldl_cons]
    rw [ih (fun g' hg' => hl g' (by simp [hg'])) _,
      lookup_schema_fields_upd_ne (hl g (by simp)) hov]

/-- The truthy field name of one `fields` entry, if any. -/
def fieldNameOf (field : Value) : Option Value :=
  match field with
  | .vmap fm =>
    if truthy ((oget fm "name").getD .vnull) then some ((oget fm "name").getD .vnull)
    else none
  | _ => none

theorem fieldNamesOf_eq (fl : List Value) : fieldNamesOf fl = fl.filterMap fieldNameOf := rfl

theorem schema_field_step_dup (p : String) (oname : Value) (s : St) (fns : List Value)
    (i : Nat) (field : Value) :
    countPT ((schema_field_step p oname (s, fns, i) field).1).errors p "duplicate_field" =
      countPT s.errors p "duplicate_field" +
        (match fieldNameOf field with
         | some n => if n ∈ fns then 1 else 0
         | none => 0) ∧
    (schema_field_step p oname (s, fns, i) field).2.1 =
      (match fieldNameOf field with
       | some n => insertSet fns n
       | none => fns) := by
  rcases field with _ | b | n | st | l | fm <;>
    simp only [schema_field_step, fieldNameOf] <;> (try dsimp only)
  · exact ⟨by simp +decide [countPT_addErr], by trivial⟩
  · exact ⟨by simp +decide [countPT_addErr], by trivial⟩
  · exact ⟨by simp +decide [countPT_addErr], by trivial⟩
  · exact ⟨by simp +decide [countPT_addErr], by trivial⟩
  · exact ⟨by simp +decide [countPT_addErr], by trivial⟩
  · by_cases hname : truthy ((oget fm "name").getD .vnull) = false
    · have hnn : ¬(truthy ((oget fm "name").getD .vnull) = true) := by simp [hname]
      rw [if_pos hname, if_neg hnn]
      exact ⟨by simp +decide [countPT_addErr], by trivial⟩
    · have hnt : truthy ((oget fm "name").getD .vnull) = true := by
        revert hname
        cases truthy ((oget fm "name").getD .vnull) <;> simp
      rw [if_neg hname, if_pos hnt]
      dsimp only
      refine ⟨?_, by trivial⟩
      rcases hty2 : (oget fm "type").getD Value.vnull with _ | b | n | t | l | mm <;>
        (try dsimp only) <;> split_ifs <;>
        simp +decide [countPT_addErr, countPT_addWarn_errors]

theorem schema_loop_dup_count (p : String) (oname : Value) :
    ∀ (fl : List Value) (s : St) (fns : List Value) (i : Nat),
      countPT ((fl.foldl (schema_field_step p oname) (s, fns, i)).1).errors p
          "duplicate_field" + ((fieldNamesOf fl).foldl insertSet fns).length =
        countPT s.errors p "duplicate_field" + (fieldNamesOf fl).length + fns.length := by
  intro fl
  induction fl with
  | nil =>
    intro s fns i
    simp [fieldNamesOf]
  | cons field fl ih =>
    intro s fns i
    obtain ⟨hc, hf⟩ := schema_field_step_dup p oname s fns i field
    rcases hstep : schema_field_step p oname (s, fns, i) field with ⟨s2, fns2, i2⟩
    rw [hstep] at hc hf
    dsimp only at hc hf
    simp only [List.foldl_cons, hstep]
    have hnames : fieldNamesOf (field :: fl) =
        (match fieldNameOf field with
         | some n => n :: fieldNamesOf fl
         | none => fieldNamesOf fl) := by
      rw [fieldNamesOf_eq, List.filterMap_cons]
      rcases fieldNameOf field with _ | n <;> rfl
    rcases hname : fieldNameOf field with _ | n
    · rw [hname] at hc hf
      dsimp only at hc hf
      rw [hnames, hname]
      dsimp only
      have hrec := ih s2 fns2 i2
      rw [hf] at hrec ⊢
      omega
    · rw [hname] at hc hf
      dsimp only at hc hf
      rw [hnames, hname]
      dsimp only
      rw [List.foldl_cons]
      subst hf
      by_cases hmem : n ∈ fns
      · rw [if_pos hmem] at hc
        have hrec := ih s2 (insertSet fns n) i2
        rw [insertSet_of_mem hmem] at hrec ⊢
        simp only [List.length_cons]
        omega
      · rw [if_neg hmem] at hc
        have hrec := ih s2 (insertSet fns n) i2
        have hlen := length_insertSet_of_not_mem hmem
        simp only [List.length_cons]
        omega

theorem validate_schema_dup_count (s : St) (p : String) (data : Omap) (fl : List Value)
    (hfl : oget data "fields" = some (.vlist fl)) :
    countPT (validate_schema s p data).errors p "duplicate_field" +
        (schemaFieldNames fl).length =
      countPT s.errors p "duplicate_field" + (fieldNamesOf fl).length := by
  simp only [validate_schema, hfl, Option.getD_some]
  have key : ∀ s2 : St,
      countPT s2.errors p "duplicate_field" = countPT s.errors p "duplicate_field" →
      countPT
          ((fl.foldl (schema_field_step p ((oget data "object").getD .vnull))
            (s2, [], 0)).1).errors p "duplicate_field" + (schemaFieldNames fl).length =
        countPT s.errors p "duplicate_field" + (fieldNamesOf fl).length := by
    intro s2 h2
    have hl := schema_loop_dup_count p ((oget data "object").getD .vnull) fl s2 [] 0
    simp only [List.length_nil, Nat.add_zero] at hl
    rw [show schemaFieldNames fl = (fieldNamesOf fl).foldl insertSet [] from rfl]
    omega
  refine key _ ?_
  split
  · exact countPT_check_required s p data _ (by decide)
  · exact countPT_check_required s p data _ (by decide)

theorem validate_file_schema_dispatch (s : St) (p : String) (data : Omap)
    (hty : oget data "type" = some (.vstr "schema")) :
    validate_file s ⟨p, .parsed (.vmap data)⟩ =
      validate_schema { s with all_files := dictSet s.all_files p data } p data := by
  simp only [validate_file, hty, Option.getD_some]
  rw [if_neg (show ¬(truthy (Value.vstr "schema") = false) by decide)]
  rw [if_neg (show ¬(Value.vstr "schema" = Value.vstr "action") by decide)]
  rw [if_pos trivial]

/-- C4 amended — for every schema document with a truthy `object` name
and a `fields` sequence, provided no schema document validated later in
the same run redeclares the same object name (and the document's path is
unique in the run): after phase 1 every truthy field name appearing in
the document is present in that object's registered field set, which
holds each name exactly once (idempotent insert), and the run records
one `duplicate_field` error for the document per repetition beyond the
first (count of names minus count of distinct names).  Without the
redeclaration proviso the claim fails; see the counterexample. -/
theorem C4_schema_field_registration (t1 t2 : List SrcFile) (p : String) (data : Omap)
    (ov : Value) (fl : List Value)
    (hty : oget data "type" = some (.vstr "schema"))
    (hov : oget data "object" = some ov) (htruthy : truthy ov = true)
    (hfl : oget data "fields" = some (.vlist fl))
    (hlater : ∀ g ∈ t2, declaresSchemaObject g ov = false)
    (hpath : p ∉ (t1 ++ t2).map SrcFile.path) :
    lookupSF (validate_syntax_phase initSt
        (.files (t1 ++ ⟨p, .parsed (.vmap data)⟩ :: t2))).sym.schema_fields ov =
      some (schemaFieldNames fl) ∧
    (∀ v, v ∈ fieldNamesOf fl → v ∈ schemaFieldNames fl) ∧
    (schemaFieldNames fl).Nodup ∧
    countPT (validate_syntax_phase initSt
        (.files (t1 ++ ⟨p, .parsed (.vmap data)⟩ :: t2))).errors p "duplicate_field" +
      (schemaFieldNames fl).length = (fieldNamesOf fl).length := by
  have hpt1 : ∀ q ∈ t1.map SrcFile.path, q ≠ p := by
    intro q hq hqe
    subst hqe
    exact hpath (by simp only [List.map_append, List.mem_append]; exact Or.inl hq)
  have hpt2 : ∀ q ∈ t2.map SrcFile.path, q ≠ p := by
    intro q hq hqe
    subst hqe
    exact hpath (by simp only [List.map_append, List.mem_append]; exact Or.inr hq)
  have hf_upd : ∀ sf, lookupSF (schema_fields_upd sf ⟨p, .parsed (.vmap data)⟩) ov =
      some (schemaFieldNames fl) := by
    intro sf
    simp only [schema_fields_upd, hty, Option.getD_some]
    rw [if_neg (show ¬(truthy (Value.vstr "schema") = false) by decide)]
    rw [if_pos trivial]
    simp only [hov, hfl, Option.getD_some]
    rw [if_pos htruthy]
    exact schema_loop_lookup htruthy fl _ [] (lookupSF_sfSet_self _ _ _)
  refine ⟨?_, fun v hv => by simp [schemaFieldNames, mem_foldl_insertSet, hv],
    nodup_foldl_insertSet (by simp), ?_⟩
  · have h1 : (validate_syntax_phase initSt
        (.files (t1 ++ ⟨p, .parsed (.vmap data)⟩ :: t2))).sym.schema_fields =
        (t1 ++ ⟨p, .parsed (.vmap data)⟩ :: t2).foldl schema_fields_upd
          initSt.sym.schema_fields :=
      (phase1_state (t1 ++ ⟨p, .parsed (.vmap data)⟩ :: t2) initSt).2.1
    rw [h1, List.foldl_append, List.foldl_cons]
    rw [t2_lookup_preserved hlater htruthy]
    exact hf_upd _
  · set sA := t1.foldl validate_file initSt with hsA
    have hA0 : countPT sA.errors p "duplicate_field" = 0 := by
      have h := @countPT_eq_of_DX _ _ _ _ (DX_phase1_fold t1 initSt)
        p "duplicate_field"
        (fun e hpe hc => hpt1 e.file_path hpe.1 hc.1)
      rw [← hsA] at h
      rw [h]
      rfl
    have hB : countPT (validate_file sA ⟨p, .parsed (.vmap data)⟩).errors p
        "duplicate_field" + (schemaFieldNames fl).length = (fieldNamesOf fl).length := by
      rw [validate_file_schema_dispatch sA p data hty, validate_schema_dup_count _ p data fl hfl]
      have hproj : ({ sA with all_files := dictSet sA.all_files p data } : St).errors =
          sA.errors := rfl
      rw [hproj, hA0]
      exact Nat.zero_add _
    have hsplit : validate_syntax_phase initSt
        (.files (t1 ++ ⟨p, .parsed (.vmap data)⟩ :: t2)) =
        t2.foldl validate_file (validate_file sA ⟨p, .parsed (.vmap data)⟩) := by
      show (t1 ++ ⟨p, .parsed (.vmap data)⟩ :: t2).foldl validate_file initSt = _
      rw [List.foldl_append, List.foldl_cons]
    rw [hsplit]
    have hC := @countPT_eq_of_DX _ _ _ _
      (DX_phase1_fold t2 (validate_file sA ⟨p, .parsed (.vmap data)⟩))
      p "duplicate_field"
      (fun e hpe hc => hpt2 e.file_path hpe.1 hc.1)
    rw [hC]
    exact hB

/-- The earlier schema document of the C4 counterexample. -/
def c4Schema1 : Omap :=
  [("type", .vstr "schema"), ("object", .vstr "o"), ("description", .vstr "d"),
   ("fields", .vlist [.vmap [("name", .vstr "a")]])]

/-- The later schema document of the C4 counterexample, redeclaring `o`. -/
def c4Schema2 : Omap :=
  [("type", .vstr "schema"), ("object", .vstr "o"), ("description", .vstr "d"),
   ("fields", .vlist [.vmap [("name", .vstr "b")]])]

def c4Files : List SrcFile :=
  [⟨"s1.ps", .parsed (.vmap c4Schema1)⟩, ⟨"s2.ps", .parsed (.vmap c4Schema2)⟩]

/-- C4 counterexample — two schema documents for the same object: the
field name `a` appears in the first document's `fields` sequence, yet
after phase 1 the Symbol Table holds only the second document's field
set `[b]`, because a later declaration replaces the whole set.  So "every
field name appearing in the document is present in that schema object's
registered field set after phase 1" fails as stated. -/
theorem C4_counterexample_redeclared_object :
    (Value.vstr "a") ∈ fieldNamesOf [Value.vmap [("name", .vstr "a")]] ∧
    oget c4Schema1 "fields" = some (.vlist [.vmap [("name", .vstr "a")]]) ∧
    lookupSF (validate_syntax_phase initSt (.files c4Files)).sym.schema_fields (.vstr "o") =
      some [.vstr "b"] ∧
    (Value.vstr "a") ∉ [Value.vstr "b"] := by
  decide

/-- The schema document of the C4 witness: fields `a`, `a`, `b`. -/
def c4DupDoc : Omap :=
  [("type", .vstr "schema"), ("object", .vstr "o"), ("description", .vstr "d"),
   ("fields", .vlist [.vmap [("name", .vstr "a")], .vmap [("name", .vstr "a")],
     .vmap [("name", .vstr "b")]])]

/-- C4 witness — a single schema document with fields `a`, `a`, `b`:
after phase 1 the registered set is `[a, b]` (each name once) and one
`duplicate_field` error was recorded (3 occurrences − 2 distinct). -/
theorem C4_witness :
    lookupSF (validate_syntax_phase initSt
        (.files [⟨"s.ps", .parsed (.vmap c4DupDoc)⟩])).sym.schema_fields (.vstr "o") =
      some [.vstr "a", .vstr "b"] ∧
    countPT (validate_syntax_phase initSt
        (.files [⟨"s.ps", .parsed (.vmap c4DupDoc)⟩])).errors "s.ps" "duplicate_field" + 2 =
      3 := by
  have h := C4_schema_field_registration [] [] "s.ps" c4DupDoc (.vstr "o")
    [.vmap [("name", .vstr "a")], .vmap [("name", .vstr "a")], .vmap [("name", .vstr "b")]]
    (by decide) (by decide) (by decide) (by decide) (by decide) (by decide)
  exact ⟨h.1, h.2.2.2⟩
